import Mathlib

/-
Verification development for a stock-exchange matching service (Rust).

The Rust source is shallowly embedded:
- `f32` prices and cash amounts are modelled as exact rationals (ℚ);
  the source's `partial_cmp` on non-NaN floats is the total order on ℚ.
- `u32` sizes are naturals; where the source subtracts without a guard
  (`left_size -= fill_size`, `size - execution_size`, `*size -= minus_size`)
  we use `wrapSub`, the wrapping u32 subtraction of a release build.
- `HashMap` is an association list (`mlookup` / `minsert` / `mremove` /
  first-binding semantics); `HashSet<ℕ>` is a `Finset ℕ`.
- `BinaryHeap` is a list whose pop removes a maximal element under the
  source's `Ord` instance (`popMax`); which of several `Ordering.eq`-equal
  elements is returned first is unspecified in Rust, and our model fixes
  one admissible choice.
- Functions that can `panic!`/`unwrap` on `None` return `Option`.
- The matching loops recurse on an explicit bound (`fuel`) that is
  initialised to a provably sufficient value; the unfolding theorems
  below (`get_best_sell_order_unfold`, `match_buy_loop_unfold`, ...)
  certify that the bounded functions satisfy exactly the source loop's
  recurrence.
-/

set_option maxRecDepth 4000

/-! ## Basic types (src/types/common.rs) -/

/- Rust numeric types are modelled directly:
`ℕ`/`ℕ`/`ℕ`/`ℕ`/`ℕ` (u64) and `ℕ` (u32) as ℕ,
`ℚ`/`ℚ` (f32) as ℚ, `String` (String) as `String`. -/

/-- Wrapping subtraction on `u32`, as performed by an unguarded `-` in a
release build of the source. For `a b < 2^32` this is `a.wrapping_sub(b)`. -/
def wrapSub (a b : ℕ) : ℕ := if b ≤ a then a - b else a + 2 ^ 32 - b

inductive Direction
  | Buy
  | Sell
deriving DecidableEq

inductive LimitOrMarket
  | Limit
  | Market
deriving DecidableEq

inductive TimeInForce
  | Day
  | IOC
deriving DecidableEq

/-! ## Order types (src/types/order.rs, src/types/orderbook.rs) -/

structure BuyOrder where
  order_id : ℕ
  size : ℕ
  price : ℚ
  timestamp : ℕ
deriving DecidableEq

structure SellOrder where
  order_id : ℕ
  size : ℕ
  price : ℚ
  timestamp : ℕ
deriving DecidableEq

structure NewOrderRequest where
  order_id : ℕ
  direction : Direction
  size : ℕ
  price : ℚ
  timestamp : ℕ
  limit_or_market : LimitOrMarket
  time_in_force : TimeInForce
deriving DecidableEq

structure CancelOrderRequest where
  order_id : ℕ
deriving DecidableEq

inductive OrderbookRequest
  | NewOrder (req : NewOrderRequest)
  | CancelOrder (req : CancelOrderRequest)
deriving DecidableEq

structure OrderFillResponse where
  order_id : ℕ
  fill_size : ℕ
  fill_price : ℚ
deriving DecidableEq

structure OrderDeadResponse where
  order_id : ℕ
deriving DecidableEq

inductive OrderResponse
  | OrderFill (r : OrderFillResponse)
  | OrderDead (r : OrderDeadResponse)
deriving DecidableEq

/-! ## Events (src/types/event.rs) -/

structure OrderAdded where
  order_id : ℕ
  ticker : String
  direction : Direction
  resting_size : ℕ
  limit_price : ℚ
deriving DecidableEq

structure OrderExecuted where
  order_id : ℕ
  ticker : String
  execution_size : ℕ
  execution_price : ℚ
deriving DecidableEq

structure OrderRemoved where
  order_id : ℕ
deriving DecidableEq

inductive Event
  | OrderAdded (e : OrderAdded)
  | OrderExecuted (e : OrderExecuted)
  | OrderRemoved (e : OrderRemoved)
deriving DecidableEq

inductive OrderbookLog
  | OrderLog (r : OrderResponse)
  | EventLog (e : Event)
deriving DecidableEq

/-! ## Portal types (src/types/portal.rs) -/

structure PortalNewOrderRequest where
  ticker : String
  direction : Direction
  size : ℕ
  price : ℚ
  limit_or_market : LimitOrMarket
  time_in_force : TimeInForce
  timestamp : ℕ
deriving DecidableEq

inductive PortalRequest
  | EventHistory (sub_id : ℕ)
  | NewOrder (inv_id : ℕ) (req : PortalNewOrderRequest)
  | CancelOrder (inv_id : ℕ) (order_id : ℕ)
deriving DecidableEq

inductive PortalTask
  | EventHistory (sub_id : ℕ) (events : List Event)
  | IncrementalEvent (e : Event)
  | OrderAck (inv_id : ℕ) (seqnum : ℕ) (order_id : ℕ)
  | OrderReject (inv_id : ℕ) (seqnum : ℕ) (reason : String)
  | CancelReject (inv_id : ℕ) (seqnum : ℕ) (reason : String)
  | OrderResponse (inv_id : ℕ) (resp : OrderResponse)
deriving DecidableEq

/-! ## Records (src/portal/order_info.rs, stock_manager.rs, account types) -/

structure OrderRecord where
  inv_id : ℕ
  ticker : String
  direction : Direction
  limit_price : ℚ
  initial_size : ℕ
deriving DecidableEq

structure StockRecord where
  close_price : ℚ
  lot_size : ℕ
  mpf : ℚ
  name : String
deriving DecidableEq

inductive PotentialOrder
  | PotentialBuy (total_price : ℚ)
  | PotentialSell (size : ℕ) (ticker : String)
deriving DecidableEq

inductive AccountUpdate
  | UpdCash (inv_id : ℕ) (delta_cash : ℚ)
  | AddPos (inv_id : ℕ) (ticker : String) (size : ℕ)
  | MinusPos (inv_id : ℕ) (ticker : String) (size : ℕ)
deriving DecidableEq

structure Account where
  inv_id : ℕ
  acc_name : String
  password : String
  cash : ℚ
  positions : List (String × ℕ)
deriving DecidableEq

/-! ## Association-list maps (model of `HashMap`) -/

def mlookup {κ α : Type} [DecidableEq κ] : List (κ × α) → κ → Option α
  | [], _ => none
  | (k', v) :: rest, k => if k = k' then some v else mlookup rest k

def minsert {κ α : Type} [DecidableEq κ] : List (κ × α) → κ → α → List (κ × α)
  | [], k, v => [(k, v)]
  | (k', v') :: rest, k, v =>
      if k = k' then (k, v) :: rest else (k', v') :: minsert rest k v

def mremove {κ α : Type} [DecidableEq κ] : List (κ × α) → κ → List (κ × α)
  | [], _ => []
  | (k', v') :: rest, k => if k = k' then rest else (k', v') :: mremove rest k

/-! ## Heap ordering (src/types/order.rs)

`BuyOrder::cmp` and `SellOrder::cmp`, transcribed branch for branch.
-/

def buyOrderCmp (a b : BuyOrder) : Ordering :=
  match cmp a.price b.price with
  | .eq =>
      match cmp a.timestamp b.timestamp with
      | .eq => .eq
      | .gt => .lt
      | .lt => .gt
  | .gt => .gt
  | .lt => .lt

def sellOrderCmp (a b : SellOrder) : Ordering :=
  match cmp a.price b.price with
  | .eq =>
      match cmp a.timestamp b.timestamp with
      | .eq => .eq
      | .gt => .lt
      | .lt => .gt
  | .gt => .lt
  | .lt => .gt

/-- Model of `BinaryHeap::pop`: remove a maximal element under `c`
(among `Ordering.eq`-equal elements Rust's choice is unspecified; this
model keeps the earliest-pushed one). -/
def popMax {α : Type} (c : α → α → Ordering) : List α → Option (α × List α)
  | [] => none
  | x :: xs =>
      match popMax c xs with
      | none => some (x, [])
      | some (m, rest) => if c x m = .lt then some (m, x :: rest) else some (x, xs)

/-! ## Orderbook (src/portal/orderbook.rs) -/

structure OrderBook where
  ticker : String
  buy_orders : List BuyOrder
  sell_orders : List SellOrder
  lazy_deleted : Finset ℕ
deriving DecidableEq

/-- `OrderBook::get_best_buy_order`, recursion bounded by the heap length
(each pop removes one element, so `heap.length` steps always suffice). -/
def get_best_buy_go : ℕ → List BuyOrder → Finset ℕ →
    Option BuyOrder × List BuyOrder × Finset ℕ
  | 0, heap, del => (none, heap, del)
  | fuel + 1, heap, del =>
      match popMax buyOrderCmp heap with
      | none => (none, heap, del)
      | some (m, rest) =>
          if m.order_id ∈ del then get_best_buy_go fuel rest (del.erase m.order_id)
          else (some m, rest, del)

def get_best_buy_order (heap : List BuyOrder) (del : Finset ℕ) :
    Option BuyOrder × List BuyOrder × Finset ℕ :=
  get_best_buy_go heap.length heap del

/-- `OrderBook::get_best_sell_order`. -/
def get_best_sell_go : ℕ → List SellOrder → Finset ℕ →
    Option SellOrder × List SellOrder × Finset ℕ
  | 0, heap, del => (none, heap, del)
  | fuel + 1, heap, del =>
      match popMax sellOrderCmp heap with
      | none => (none, heap, del)
      | some (m, rest) =>
          if m.order_id ∈ del then get_best_sell_go fuel rest (del.erase m.order_id)
          else (some m, rest, del)

def get_best_sell_order (heap : List SellOrder) (del : Finset ℕ) :
    Option SellOrder × List SellOrder × Finset ℕ :=
  get_best_sell_go heap.length heap del

/-- `OrderBook::generate_trade_log`. -/
def generate_trade_log (tk : String) (order_id : ℕ) (fill_size : ℕ)
    (fill_price : ℚ) : List OrderbookLog :=
  [.OrderLog (.OrderFill ⟨order_id, fill_size, fill_price⟩),
   .EventLog (.OrderExecuted ⟨order_id, tk, fill_size, fill_price⟩)]

def sizeSumSell (l : List SellOrder) : ℕ := (l.map SellOrder.size).sum

def sizeSumBuy (l : List BuyOrder) : ℕ := (l.map BuyOrder.size).sum

/-- Result of the matching loop of `handle_new_buy_order`: remaining
taker quantity, the opposite heap, the tombstone set, and the emitted logs. -/
structure BuyLoopResult where
  left : ℕ
  sells : List SellOrder
  deleted : Finset ℕ
  logs : List OrderbookLog
deriving DecidableEq

structure SellLoopResult where
  left : ℕ
  buys : List BuyOrder
  deleted : Finset ℕ
  logs : List OrderbookLog
deriving DecidableEq

/-- The `while let` loop of `handle_new_buy_order` (orderbook.rs:82-114),
bounded; the bound strictly decreases at each iteration (each fill either
pops a resting order for good or shrinks its size by `req.size ≥ 1`).
Note the source computes `fill_size = min(req.size, best.size)` from the
ORIGINAL request size, not from `left`. -/
def match_buy_go (tk : String) (req : NewOrderRequest) :
    ℕ → ℕ → List SellOrder → Finset ℕ → BuyLoopResult
  | 0, left, sells, del => ⟨left, sells, del, []⟩
  | fuel + 1, left, sells, del =>
      match get_best_sell_order sells del with
      | (none, sells', del') => ⟨left, sells', del', []⟩
      | (some best, sells', del') =>
          if req.price < best.price ∨ left = 0 then ⟨left, best :: sells', del', []⟩
          else
            let fill_size := min req.size best.size
            let fill_price := best.price
            let maker_logs := generate_trade_log tk best.order_id fill_size fill_price
            if fill_size < best.size then
              let r := match_buy_go tk req fuel (wrapSub left fill_size)
                (⟨best.order_id, best.size - fill_size, best.price, best.timestamp⟩ :: sells')
                del'
              ⟨r.left, r.sells, r.deleted,
               maker_logs ++ generate_trade_log tk req.order_id fill_size fill_price ++ r.logs⟩
            else
              let r := match_buy_go tk req fuel (wrapSub left fill_size) sells' del'
              ⟨r.left, r.sells, r.deleted,
               maker_logs ++ [.OrderLog (.OrderDead ⟨best.order_id⟩)]
                 ++ generate_trade_log tk req.order_id fill_size fill_price ++ r.logs⟩

def match_buy_loop (tk : String) (req : NewOrderRequest) (left : ℕ)
    (sells : List SellOrder) (del : Finset ℕ) : BuyLoopResult :=
  match_buy_go tk req (sizeSumSell sells + sells.length + 1) left sells del

/-- The `while let` loop of `handle_new_sell_order` (orderbook.rs:150-182). -/
def match_sell_go (tk : String) (req : NewOrderRequest) :
    ℕ → ℕ → List BuyOrder → Finset ℕ → SellLoopResult
  | 0, left, buys, del => ⟨left, buys, del, []⟩
  | fuel + 1, left, buys, del =>
      match get_best_buy_order buys del with
      | (none, buys', del') => ⟨left, buys', del', []⟩
      | (some best, buys', del') =>
          if best.price < req.price ∨ left = 0 then ⟨left, best :: buys', del', []⟩
          else
            let fill_size := min req.size best.size
            let fill_price := best.price
            let maker_logs := generate_trade_log tk best.order_id fill_size fill_price
            if fill_size < best.size then
              let r := match_sell_go tk req fuel (wrapSub left fill_size)
                (⟨best.order_id, best.size - fill_size, best.price, best.timestamp⟩ :: buys')
                del'
              ⟨r.left, r.buys, r.deleted,
               maker_logs ++ generate_trade_log tk req.order_id fill_size fill_price ++ r.logs⟩
            else
              let r := match_sell_go tk req fuel (wrapSub left fill_size) buys' del'
              ⟨r.left, r.buys, r.deleted,
               maker_logs ++ [.OrderLog (.OrderDead ⟨best.order_id⟩)]
                 ++ generate_trade_log tk req.order_id fill_size fill_price ++ r.logs⟩

def match_sell_loop (tk : String) (req : NewOrderRequest) (left : ℕ)
    (buys : List BuyOrder) (del : Finset ℕ) : SellLoopResult :=
  match_sell_go tk req (sizeSumBuy buys + buys.length + 1) left buys del

/-- `OrderBook::handle_new_buy_order`. -/
def handle_new_buy_order (bk : OrderBook) (req : NewOrderRequest) :
    OrderBook × List OrderbookLog :=
  let r := match_buy_loop bk.ticker req req.size bk.sell_orders bk.lazy_deleted
  if 0 < r.left ∧ req.limit_or_market = .Limit ∧ req.time_in_force = .Day then
    ({ bk with
        sell_orders := r.sells
        lazy_deleted := r.deleted
        buy_orders := ⟨req.order_id, r.left, req.price, req.timestamp⟩ :: bk.buy_orders },
     r.logs ++ [.EventLog (.OrderAdded
        ⟨req.order_id, bk.ticker, req.direction, r.left, req.price⟩)])
  else
    ({ bk with sell_orders := r.sells, lazy_deleted := r.deleted },
     r.logs ++ [.OrderLog (.OrderDead ⟨req.order_id⟩)])

/-- `OrderBook::handle_new_sell_order`. -/
def handle_new_sell_order (bk : OrderBook) (req : NewOrderRequest) :
    OrderBook × List OrderbookLog :=
  let r := match_sell_loop bk.ticker req req.size bk.buy_orders bk.lazy_deleted
  if 0 < r.left ∧ req.limit_or_market = .Limit ∧ req.time_in_force = .Day then
    ({ bk with
        buy_orders := r.buys
        lazy_deleted := r.deleted
        sell_orders := ⟨req.order_id, r.left, req.price, req.timestamp⟩ :: bk.sell_orders },
     r.logs ++ [.EventLog (.OrderAdded
        ⟨req.order_id, bk.ticker, req.direction, r.left, req.price⟩)])
  else
    ({ bk with buy_orders := r.buys, lazy_deleted := r.deleted },
     r.logs ++ [.OrderLog (.OrderDead ⟨req.order_id⟩)])

/-- `OrderBook::handle_new_order`. -/
def handle_new_order (bk : OrderBook) (req : NewOrderRequest) :
    OrderBook × List OrderbookLog :=
  match req.direction with
  | .Buy => handle_new_buy_order bk req
  | .Sell => handle_new_sell_order bk req

/-- `OrderBook::handle_cancel_order`. -/
def handle_cancel_order (bk : OrderBook) (req : CancelOrderRequest) :
    OrderBook × List OrderbookLog :=
  ({ bk with lazy_deleted := insert req.order_id bk.lazy_deleted },
   [.OrderLog (.OrderDead ⟨req.order_id⟩),
    .EventLog (.OrderRemoved ⟨req.order_id⟩)])

/-- `OrderBook::handle_request`. -/
def orderbook_handle_request (bk : OrderBook) (req : OrderbookRequest) :
    OrderBook × List OrderbookLog :=
  match req with
  | .NewOrder r => handle_new_order bk r
  | .CancelOrder r => handle_cancel_order bk r

/-- `OrderBook::best_buy_price` (pops the best order, then pushes it back;
this is the only place stale tombstoned entries are collected). -/
def best_buy_price (bk : OrderBook) : Option ℚ × OrderBook :=
  match get_best_buy_order bk.buy_orders bk.lazy_deleted with
  | (some best, heap', del') =>
      (some best.price, { bk with buy_orders := best :: heap', lazy_deleted := del' })
  | (none, heap', del') =>
      (none, { bk with buy_orders := heap', lazy_deleted := del' })

/-- `OrderBook::best_sell_price`. -/
def best_sell_price (bk : OrderBook) : Option ℚ × OrderBook :=
  match get_best_sell_order bk.sell_orders bk.lazy_deleted with
  | (some best, heap', del') =>
      (some best.price, { bk with sell_orders := best :: heap', lazy_deleted := del' })
  | (none, heap', del') =>
      (none, { bk with sell_orders := heap', lazy_deleted := del' })

/-! ## Order info (src/portal/order_info.rs) -/

/-- `OrderInfo::get_resting`: returns the current resting size if positive;
a stored zero is removed on the way (the map is mutated, so the updated
map is returned alongside). -/
def get_resting (resting : List (ℕ × ℕ)) (order_id : ℕ) :
    Option ℕ × List (ℕ × ℕ) :=
  match mlookup resting order_id with
  | none => (none, resting)
  | some s => if s = 0 then (none, mremove resting order_id) else (some s, resting)

/-- `OrderInfo::valid_cancel_order`: non-zero resting entry AND matching owner. -/
def valid_cancel_order (bind : List (ℕ × OrderRecord))
    (resting : List (ℕ × ℕ)) (order_id : ℕ) (inv_id : ℕ) :
    Bool × List (ℕ × ℕ) :=
  match get_resting resting order_id with
  | (some _, resting') =>
      ((mlookup bind order_id).elim false (fun p => decide (p.inv_id = inv_id)), resting')
  | (none, resting') => (false, resting')

/-- `OrderInfo::update_by_event`. -/
def order_info_update_by_event (resting : List (ℕ × ℕ)) (event : Event) :
    List (ℕ × ℕ) :=
  match event with
  | .OrderAdded a => minsert resting a.order_id a.resting_size
  | .OrderExecuted ex =>
      match get_resting resting ex.order_id with
      | (some s, resting') => minsert resting' ex.order_id (wrapSub s ex.execution_size)
      | (none, resting') => resting'
  | .OrderRemoved rm => mremove resting rm.order_id

/-- `OrderInfo::add_new_order` (binds the immutable record only). -/
def add_new_order (bind : List (ℕ × OrderRecord)) (order_id : ℕ)
    (inv_id : ℕ) (req : PortalNewOrderRequest) : List (ℕ × OrderRecord) :=
  minsert bind order_id ⟨inv_id, req.ticker, req.direction, req.price, req.size⟩

/-! ## Stock manager (src/portal/stock_manager.rs) -/

/-- `StockManager::check_valid_price`: `|p/mpf - (p/mpf).floor()| < f32::EPSILON`,
with `f32::EPSILON = 2^-23`. -/
def check_valid_price (p mpf : ℚ) : Bool :=
  decide (|p / mpf - (⌊p / mpf⌋ : ℚ)| < 1 / 2 ^ 23)

/-- `StockManager::check_valid_size`: `size % lot_size == 0 && size > 0`. -/
def check_valid_size (size lot_size : ℕ) : Bool :=
  (size % lot_size == 0) && decide (0 < size)

/-- `StockManager::check_valid_order`. -/
def check_valid_order (stocks : List (String × StockRecord)) (ticker : String)
    (price : ℚ) (size : ℕ) : Bool :=
  (mlookup stocks ticker).elim false fun rec =>
    check_valid_price price rec.mpf && check_valid_size size rec.lot_size

/-- `StockManager::get_close_price`. -/
def get_close_price (stocks : List (String × StockRecord)) (ticker : String) :
    Option ℚ :=
  (mlookup stocks ticker).map StockRecord.close_price

/-! ## Account (src/portal/account.rs) and manager (src/portal/account_manager.rs) -/

/-- `Account::valid_potential_order`. -/
def account_valid_potential_order (acc : Account) (p_order : PotentialOrder) : Bool :=
  match p_order with
  | .PotentialBuy total_price => decide (total_price ≤ acc.cash)
  | .PotentialSell size ticker =>
      (mlookup acc.positions ticker).elim false (fun own_size => decide (size ≤ own_size))

/-- `Account::update`. -/
def account_update_one (acc : Account) (upd : AccountUpdate) : Account :=
  match upd with
  | .UpdCash _ delta_cash => { acc with cash := acc.cash + delta_cash }
  | .AddPos _ ticker add_size =>
      match mlookup acc.positions ticker with
      | some sz => { acc with positions := minsert acc.positions ticker (sz + add_size) }
      | none => { acc with positions := minsert acc.positions ticker add_size }
  | .MinusPos _ ticker minus_size =>
      match mlookup acc.positions ticker with
      | some sz => { acc with positions := minsert acc.positions ticker (wrapSub sz minus_size) }
      | none => acc

/-- `utils::get_inv_id`. -/
def get_upd_inv_id (upd : AccountUpdate) : ℕ :=
  match upd with
  | .UpdCash inv_id _ => inv_id
  | .AddPos inv_id _ _ => inv_id
  | .MinusPos inv_id _ _ => inv_id

/-- `AccountManager::update`. -/
def accounts_update (accounts : List (ℕ × Account)) (upd : AccountUpdate) :
    List (ℕ × Account) :=
  match mlookup accounts (get_upd_inv_id upd) with
  | some acc => minsert accounts (get_upd_inv_id upd) (account_update_one acc upd)
  | none => accounts

/-- `AccountManager::valid_potential_order`. -/
def accounts_valid_potential_order (accounts : List (ℕ × Account)) (inv_id : ℕ)
    (p_order : PotentialOrder) : Bool :=
  (mlookup accounts inv_id).elim false (account_valid_potential_order · p_order)

/-- `AccountManager::update_by_potential_order` (advance drawdown). -/
def update_by_potential_order (accounts : List (ℕ × Account)) (inv_id : ℕ)
    (p_order : PotentialOrder) : List (ℕ × Account) :=
  if (mlookup accounts inv_id).isSome then
    match p_order with
    | .PotentialBuy total_price => accounts_update accounts (.UpdCash inv_id (-total_price))
    | .PotentialSell size ticker => accounts_update accounts (.MinusPos inv_id ticker size)
  else accounts

/-! ## Orderbook manager (src/portal/orderbook_manager.rs) -/

/-- `OrderbookManager::handle_orderbook_request` (returns `vec![]` and leaves
the map unchanged when the ticker has no orderbook). -/
def obm_handle_request (books : List (String × OrderBook)) (ticker : String)
    (req : OrderbookRequest) : List OrderbookLog × List (String × OrderBook) :=
  match mlookup books ticker with
  | none => ([], books)
  | some bk =>
      let r := orderbook_handle_request bk req
      (r.2, minsert books ticker r.1)

/-- `OrderbookManager::best_buy_price`. -/
def obm_best_buy_price (books : List (String × OrderBook)) (ticker : String) :
    Option ℚ × List (String × OrderBook) :=
  match mlookup books ticker with
  | none => (none, books)
  | some bk =>
      let r := best_buy_price bk
      (r.1, minsert books ticker r.2)

/-- `OrderbookManager::best_sell_price`. -/
def obm_best_sell_price (books : List (String × OrderBook)) (ticker : String) :
    Option ℚ × List (String × OrderBook) :=
  match mlookup books ticker with
  | none => (none, books)
  | some bk =>
      let r := best_sell_price bk
      (r.1, minsert books ticker r.2)

/-! ## Portal (src/portal.rs) -/

structure Portal where
  orderbooks : List (String × OrderBook)
  events : List Event
  order_bind : List (ℕ × OrderRecord)
  order_resting : List (ℕ × ℕ)
  accounts : List (ℕ × Account)
  stocks : List (String × StockRecord)
  last_order_id : ℕ
deriving DecidableEq

/-- `Portal::new`: one empty orderbook per configured stock, counter at 0. -/
def mk_portal (stocks : List (String × StockRecord)) (accounts : List (ℕ × Account)) :
    Portal :=
  { orderbooks := stocks.map fun s => (s.1, ⟨s.1, [], [], ∅⟩)
    events := []
    order_bind := []
    order_resting := []
    accounts := accounts
    stocks := stocks
    last_order_id := 0 }

/-- `utils::get_order_id`. -/
def get_resp_order_id (resp : OrderResponse) : ℕ :=
  match resp with
  | .OrderFill f => f.order_id
  | .OrderDead d => d.order_id

/-- `utils::orderresponse_to_acc_update` (src/portal/utils.rs:11-59). -/
def orderresponse_to_acc_update (resp : OrderResponse) (order_rec : OrderRecord)
    (resting_size : Option ℕ) : List AccountUpdate :=
  match resp with
  | .OrderFill order_fill =>
      match order_rec.direction with
      | .Buy =>
          [.UpdCash order_rec.inv_id
             ((order_fill.fill_size : ℚ) * (order_rec.limit_price - order_fill.fill_price)),
           .AddPos order_rec.inv_id order_rec.ticker order_fill.fill_size]
      | .Sell =>
          [.UpdCash order_rec.inv_id ((order_fill.fill_size : ℚ) * order_fill.fill_price)]
  | .OrderDead _ =>
      match order_rec.direction with
      | .Buy =>
          match resting_size with
          | some rs => [.UpdCash order_rec.inv_id ((rs : ℚ) * order_rec.limit_price)]
          | none => []
      | .Sell =>
          match resting_size with
          | some rs => [.AddPos order_rec.inv_id order_rec.ticker rs]
          | none => []

/-- `Portal::process_log`; `none` models the `unwrap` panic when the
order record is missing. -/
def process_log (st : Portal) (log : OrderbookLog) : Option (Portal × PortalTask) :=
  match log with
  | .OrderLog order_resp =>
      let order_id := get_resp_order_id order_resp
      let r := get_resting st.order_resting order_id
      match mlookup st.order_bind order_id with
      | none => none
      | some order_rec =>
          let updates := orderresponse_to_acc_update order_resp order_rec r.1
          some ({ st with
                    order_resting := r.2
                    accounts := updates.foldl accounts_update st.accounts },
                .OrderResponse order_rec.inv_id order_resp)
  | .EventLog event =>
      some ({ st with
                events := st.events ++ [event]
                order_resting := order_info_update_by_event st.order_resting event },
            .IncrementalEvent event)

/-- `Portal::process_logs`. -/
def process_logs (st : Portal) : List OrderbookLog → Option (Portal × List PortalTask)
  | [] => some (st, [])
  | log :: logs =>
      match process_log st log with
      | none => none
      | some (st', task) =>
          match process_logs st' logs with
          | none => none
          | some (st'', tasks) => some (st'', task :: tasks)

/-- `Portal::find_ticker_by_order_id`. -/
def find_ticker_by_order_id (st : Portal) (order_id : ℕ) : Option String :=
  (mlookup st.order_bind order_id).map OrderRecord.ticker

/-- `Portal::generate_order_id` (monotone counter). -/
def generate_order_id (st : Portal) : ℕ × Portal :=
  (st.last_order_id + 1, { st with last_order_id := st.last_order_id + 1 })

/-- `Portal::make_potential_order`. -/
def make_potential_order (req : PortalNewOrderRequest) : PotentialOrder :=
  match req.direction with
  | .Buy => .PotentialBuy (req.price * (req.size : ℚ))
  | .Sell => .PotentialSell req.size req.ticker

/-- `Portal::fill_in_market_order` (src/portal.rs:131-156). Note: the source
replaces the price by the best opposite price unconditionally — it never
inspects `req.limit_or_market`. `none` models the `unwrap` panic when the
opposite book is empty and the ticker has no close price. -/
def fill_in_market_order (st : Portal) (req : PortalNewOrderRequest) :
    Option (PortalNewOrderRequest × Portal) :=
  match req.direction with
  | .Buy =>
      let r := obm_best_sell_price st.orderbooks req.ticker
      match r.1 with
      | some best_price =>
          some ({ req with price := best_price }, { st with orderbooks := r.2 })
      | none =>
          match get_close_price st.stocks req.ticker with
          | some close => some ({ req with price := close }, { st with orderbooks := r.2 })
          | none => none
  | .Sell =>
      let r := obm_best_buy_price st.orderbooks req.ticker
      match r.1 with
      | some best_price =>
          some ({ req with price := best_price }, { st with orderbooks := r.2 })
      | none =>
          match get_close_price st.stocks req.ticker with
          | some close => some ({ req with price := close }, { st with orderbooks := r.2 })
          | none => none

/-- `Portal::process_new_order` (engine dispatch and log translation). -/
def process_new_order (st : Portal) (order_id : ℕ) (req : PortalNewOrderRequest) :
    Option (Portal × List PortalTask) :=
  let ob_req : OrderbookRequest := .NewOrder
    ⟨order_id, req.direction, req.size, req.price, req.timestamp,
     req.limit_or_market, req.time_in_force⟩
  let r := obm_handle_request st.orderbooks req.ticker ob_req
  process_logs { st with orderbooks := r.2 } r.1

/-- `Portal::process_portal_new_order` (src/portal.rs:175-217). -/
def process_portal_new_order (st : Portal) (inv_id : ℕ) (seqnum : ℕ)
    (req : PortalNewOrderRequest) : Option (Portal × List PortalTask) :=
  if check_valid_order st.stocks req.ticker req.price req.size then
    match fill_in_market_order st req with
    | none => none
    | some (req, st) =>
        let p_order := make_potential_order req
        if accounts_valid_potential_order st.accounts inv_id p_order then
          let g := generate_order_id st
          let st := { g.2 with
                        accounts := update_by_potential_order g.2.accounts inv_id p_order }
          let st := { st with order_bind := add_new_order st.order_bind g.1 inv_id req }
          match process_new_order st g.1 req with
          | none => none
          | some (st', tasks) => some (st', .OrderAck inv_id seqnum g.1 :: tasks)
        else
          some (st, [.OrderReject inv_id seqnum
            "Invalid new order request: Insufficient cash or lot to complete the order"])
  else
    some (st, [.OrderReject inv_id seqnum
      "Invalid new order request: Invalid price or size"])

/-- `Portal::process_portal_cancel_order` (src/portal.rs:220-240). -/
def process_portal_cancel_order (st : Portal) (inv_id : ℕ) (seqnum : ℕ)
    (order_id : ℕ) : Option (Portal × List PortalTask) :=
  let v := valid_cancel_order st.order_bind st.order_resting order_id inv_id
  let st := { st with order_resting := v.2 }
  if v.1 then
    match find_ticker_by_order_id st order_id with
    | none => none
    | some ticker =>
        let r := obm_handle_request st.orderbooks ticker (.CancelOrder ⟨order_id⟩)
        process_logs { st with orderbooks := r.2 } r.1
  else
    some (st, [.CancelReject inv_id seqnum "Invalid cancel order request"])

/-- `Portal::process_request`. -/
def process_request (st : Portal) (seqnum : ℕ) (req : PortalRequest) :
    Option (Portal × List PortalTask) :=
  match req with
  | .EventHistory sub_id => some (st, [.EventHistory sub_id st.events])
  | .NewOrder inv_id r => process_portal_new_order st inv_id seqnum r
  | .CancelOrder inv_id order_id => process_portal_cancel_order st inv_id seqnum order_id

/-! ## Observations used by the claims -/

/-- Total quantity filled for a given order id in a log sequence. -/
def fills_for (logs : List OrderbookLog) (oid : ℕ) : ℕ :=
  (logs.map fun l =>
    match l with
    | .OrderLog (.OrderFill f) => if f.order_id = oid then f.fill_size else 0
    | _ => 0).sum

/-- The live (not lazily-deleted) resting sell orders, as a multiset. -/
def live_sells (l : List SellOrder) (del : Finset ℕ) : Multiset SellOrder :=
  (l.filter fun o => o.order_id ∉ del : List SellOrder)

/-- The live (not lazily-deleted) resting buy orders, as a multiset. -/
def live_buys (l : List BuyOrder) (del : Finset ℕ) : Multiset BuyOrder :=
  (l.filter fun o => o.order_id ∉ del : List BuyOrder)

/-! ## Concrete states used by counterexamples and witnesses -/

/-- C1 scenario: two resting sells 60@5 (t=0) and 50@5 (t=1). -/
def bkC1 : OrderBook := ⟨"AAPL", [], [⟨1, 60, 5, 0⟩, ⟨2, 50, 5, 1⟩], ∅⟩

/-- C1 scenario: incoming limit Day buy, id 100, size 100 @ 10. -/
def reqC1 : NewOrderRequest := ⟨100, .Buy, 100, 10, 2, .Limit, .Day⟩

/-- A one-stock portal (AAPL: close 100, lot 10, mpf 1) with one investor. -/
def stC2 : Portal :=
  mk_portal [("AAPL", ⟨100, 10, 1, "Apple Inc"⟩)] [(7, ⟨7, "alice", "pw", 100000, []⟩)]

/-- C2 scenario: a LIMIT Day buy 10 @ 10 on the empty book. -/
def reqC2 : PortalNewOrderRequest := ⟨"AAPL", .Buy, 10, 10, .Limit, .Day, 3⟩

/-- C10 scenario: the AAPL book holds one tombstoned sell (id 1, lazily
deleted); the investor has no cash, so the risk check must reject. -/
def stC10 : Portal :=
  { orderbooks := [("AAPL", ⟨"AAPL", [], [⟨1, 10, 100, 0⟩], {1}⟩)]
    events := []
    order_bind := []
    order_resting := []
    accounts := [(7, ⟨7, "alice", "pw", 0, []⟩)]
    stocks := [("AAPL", ⟨100, 10, 1, "Apple Inc"⟩)]
    last_order_id := 0 }

/-- C10 scenario: a valid-tick limit Day buy 10 @ 10. -/
def reqC10 : PortalNewOrderRequest := ⟨"AAPL", .Buy, 10, 10, .Limit, .Day, 5⟩

/-! ## Heap-model lemmas -/

theorem popMax_eq_none_iff {α : Type} (c : α → α → Ordering) (l : List α) :
    popMax c l = none ↔ l = [] := by
  cases l with
  | nil => simp [popMax]
  | cons x xs =>
      simp only [popMax]
      cases popMax c xs with
      | none => simp
      | some p =>
          obtain ⟨m, rest⟩ := p
          by_cases h : c x m = .lt <;> simp [h]

theorem popMax_perm {α : Type} {c : α → α → Ordering} :
    ∀ {l : List α} {m : α} {rest : List α},
      popMax c l = some (m, rest) → l.Perm (m :: rest) := by
  intro l
  induction l with
  | nil => intro m rest h; simp [popMax] at h
  | cons x xs ih =>
      intro m rest h
      simp only [popMax] at h
      cases hp : popMax c xs with
      | none =>
          rw [hp] at h
          obtain ⟨rfl, rfl⟩ := by simpa using h
          have : xs = [] := (popMax_eq_none_iff c xs).1 hp
          subst this
          exact List.Perm.refl _
      | some p =>
          obtain ⟨m', rest'⟩ := p
          rw [hp] at h
          by_cases hc : c x m' = .lt
          · simp only [hc, if_pos] at h
            obtain ⟨rfl, rfl⟩ := by simpa using h
            exact ((ih hp).cons x).trans (List.Perm.swap m' x rest')
          · simp only [hc, if_neg, ite_false] at h
            obtain ⟨rfl, rfl⟩ := by simpa using h
            exact List.Perm.refl _

theorem popMax_length {α : Type} {c : α → α → Ordering} {l : List α} {m : α}
    {rest : List α} (h : popMax c l = some (m, rest)) : rest.length + 1 = l.length := by
  simpa using (popMax_perm h).length_eq.symm

theorem popMax_mem {α : Type} {c : α → α → Ordering} {l : List α} {m : α}
    {rest : List α} (h : popMax c l = some (m, rest)) : m ∈ l :=
  (popMax_perm h).mem_iff.2 (List.mem_cons_self m rest)

/-! ## `get_best_*_order`: unfolding and size bounds -/

theorem get_best_sell_go_fuel :
    ∀ (f : ℕ) (heap : List SellOrder) (del : Finset ℕ), heap.length ≤ f →
      get_best_sell_go f heap del = get_best_sell_order heap del := by
  intro f
  induction f with
  | zero =>
      intro heap del h
      have : heap = [] := List.length_eq_zero.1 (Nat.le_zero.1 h)
      subst this
      rfl
  | succ f ih =>
      intro heap del h
      cases hp : popMax sellOrderCmp heap with
      | none =>
          have : heap = [] := (popMax_eq_none_iff _ _).1 hp
          subst this
          rfl
      | some p =>
          obtain ⟨m, rest⟩ := p
          have hl := popMax_length hp
          unfold get_best_sell_order
          rw [← hl]
          simp only [get_best_sell_go, hp]
          by_cases hd : m.order_id ∈ del
          · simp only [hd, if_pos]
            rw [ih rest _ (by omega)]
            unfold get_best_sell_order
            rfl
          · simp [hd]

theorem get_best_sell_order_unfold (heap : List SellOrder) (del : Finset ℕ) :
    get_best_sell_order heap del =
      match popMax sellOrderCmp heap with
      | none => (none, heap, del)
      | some (m, rest) =>
          if m.order_id ∈ del then get_best_sell_order rest (del.erase m.order_id)
          else (some m, rest, del) := by
  cases hp : popMax sellOrderCmp heap with
  | none =>
      have : heap = [] := (popMax_eq_none_iff _ _).1 hp
      subst this
      rfl
  | some p =>
      obtain ⟨m, rest⟩ := p
      have hl := popMax_length hp
      unfold get_best_sell_order
      rw [← hl]
      simp only [get_best_sell_go, hp]

theorem get_best_buy_go_fuel :
    ∀ (f : ℕ) (heap : List BuyOrder) (del : Finset ℕ), heap.length ≤ f →
      get_best_buy_go f heap del = get_best_buy_order heap del := by
  intro f
  induction f with
  | zero =>
      intro heap del h
      have : heap = [] := List.length_eq_zero.1 (Nat.le_zero.1 h)
      subst this
      rfl
  | succ f ih =>
      intro heap del h
      cases hp : popMax buyOrderCmp heap with
      | none =>
          have : heap = [] := (popMax_eq_none_iff _ _).1 hp
          subst this
          rfl
      | some p =>
          obtain ⟨m, rest⟩ := p
          have hl := popMax_length hp
          unfold get_best_buy_order
          rw [← hl]
          simp only [get_best_buy_go, hp]
          by_cases hd : m.order_id ∈ del
          · simp only [hd, if_pos]
            rw [ih rest _ (by omega)]
            unfold get_best_buy_order
            rfl
          · simp [hd]

theorem get_best_buy_order_unfold (heap : List BuyOrder) (del : Finset ℕ) :
    get_best_buy_order heap del =
      match popMax buyOrderCmp heap with
      | none => (none, heap, del)
      | some (m, rest) =>
          if m.order_id ∈ del then get_best_buy_order rest (del.erase m.order_id)
          else (some m, rest, del) := by
  cases hp : popMax buyOrderCmp heap with
  | none =>
      have : heap = [] := (popMax_eq_none_iff _ _).1 hp
      subst this
      rfl
  | some p =>
      obtain ⟨m, rest⟩ := p
      have hl := popMax_length hp
      unfold get_best_buy_order
      rw [← hl]
      simp only [get_best_buy_go, hp]

theorem sizeSumSell_perm {l l' : List SellOrder} (h : l.Perm l') :
    sizeSumSell l = sizeSumSell l' :=
  (h.map SellOrder.size).sum_eq

theorem sizeSumBuy_perm {l l' : List BuyOrder} (h : l.Perm l') :
    sizeSumBuy l = sizeSumBuy l' :=
  (h.map BuyOrder.size).sum_eq

theorem get_best_sell_spec_aux :
    ∀ (n : ℕ) (heap : List SellOrder), heap.length ≤ n →
      ∀ (del : Finset ℕ) (b : SellOrder) (s' : List SellOrder) (d' : Finset ℕ),
        get_best_sell_order heap del = (some b, s', d') →
        s'.length < heap.length ∧ sizeSumSell s' + b.size ≤ sizeSumSell heap := by
  intro n
  induction n with
  | zero =>
      intro heap hlen del b s' d' h
      have : heap = [] := List.length_eq_zero.1 (Nat.le_zero.1 hlen)
      subst this
      simp [get_best_sell_order, get_best_sell_go] at h
  | succ n ih =>
      intro heap hlen del b s' d' h
      rw [get_best_sell_order_unfold] at h
      cases hp : popMax sellOrderCmp heap with
      | none => rw [hp] at h; simp at h
      | some p =>
          obtain ⟨m, rest⟩ := p
          rw [hp] at h
          have hlr := popMax_length hp
          have hsum : sizeSumSell heap = m.size + sizeSumSell rest := by
            simpa [sizeSumSell] using sizeSumSell_perm (popMax_perm hp)
          by_cases hd : m.order_id ∈ del
          · simp only [hd, if_pos] at h
            obtain ⟨h1, h2⟩ := ih rest (by omega) _ _ _ _ h
            constructor
            · omega
            · omega
          · simp only [hd, if_neg, ite_false] at h
            obtain ⟨rfl, rfl, rfl⟩ := by simpa using h
            constructor
            · omega
            · omega

theorem get_best_sell_spec {heap : List SellOrder} {del : Finset ℕ}
    {b : SellOrder} {s' : List SellOrder} {d' : Finset ℕ}
    (h : get_best_sell_order heap del = (some b, s', d')) :
    s'.length < heap.length ∧ sizeSumSell s' + b.size ≤ sizeSumSell heap :=
  get_best_sell_spec_aux heap.length heap le_rfl del b s' d' h

theorem get_best_buy_spec_aux :
    ∀ (n : ℕ) (heap : List BuyOrder), heap.length ≤ n →
      ∀ (del : Finset ℕ) (b : BuyOrder) (s' : List BuyOrder) (d' : Finset ℕ),
        get_best_buy_order heap del = (some b, s', d') →
        s'.length < heap.length ∧ sizeSumBuy s' + b.size ≤ sizeSumBuy heap := by
  intro n
  induction n with
  | zero =>
      intro heap hlen del b s' d' h
      have : heap = [] := List.length_eq_zero.1 (Nat.le_zero.1 hlen)
      subst this
      simp [get_best_buy_order, get_best_buy_go] at h
  | succ n ih =>
      intro heap hlen del b s' d' h
      rw [get_best_buy_order_unfold] at h
      cases hp : popMax buyOrderCmp heap with
      | none => rw [hp] at h; simp at h
      | some p =>
          obtain ⟨m, rest⟩ := p
          rw [hp] at h
          have hlr := popMax_length hp
          have hsum : sizeSumBuy heap = m.size + sizeSumBuy rest := by
            simpa [sizeSumBuy] using sizeSumBuy_perm (popMax_perm hp)
          by_cases hd : m.order_id ∈ del
          · simp only [hd, if_pos] at h
            obtain ⟨h1, h2⟩ := ih rest (by omega) _ _ _ _ h
            constructor
            · omega
            · omega
          · simp only [hd, if_neg, ite_false] at h
            obtain ⟨rfl, rfl, rfl⟩ := by simpa using h
            constructor
            · omega
            · omega

theorem get_best_buy_spec {heap : List BuyOrder} {del : Finset ℕ}
    {b : BuyOrder} {s' : List BuyOrder} {d' : Finset ℕ}
    (h : get_best_buy_order heap del = (some b, s', d')) :
    s'.length < heap.length ∧ sizeSumBuy s' + b.size ≤ sizeSumBuy heap :=
  get_best_buy_spec_aux heap.length heap le_rfl del b s' d' h

theorem match_buy_go_irrel (tk : String) (req : NewOrderRequest) (hreq : 0 < req.size) :
    ∀ (n : ℕ) (sells : List SellOrder), sizeSumSell sells + sells.length ≤ n →
      ∀ (f₁ f₂ : ℕ) (left : ℕ) (del : Finset ℕ), n < f₁ → n < f₂ →
        match_buy_go tk req f₁ left sells del = match_buy_go tk req f₂ left sells del := by
  intro n
  induction n using Nat.strong_induction_on with
  | _ n ih =>
      intro sells hm f₁ f₂ left del hf₁ hf₂
      obtain ⟨a, rfl⟩ : ∃ a, f₁ = a + 1 := ⟨f₁ - 1, by omega⟩
      obtain ⟨b, rfl⟩ : ∃ b, f₂ = b + 1 := ⟨f₂ - 1, by omega⟩
      simp only [match_buy_go]
      rcases hb : get_best_sell_order sells del with ⟨ob, s', d'⟩
      cases ob with
      | none => rfl
      | some best =>
          by_cases hstop : req.price < best.price ∨ left = 0
          · simp only [hstop, if_pos]
          · simp only [hstop, if_neg, ite_false]
            obtain ⟨hlen, hsum⟩ := get_best_sell_spec hb
            rcases Nat.lt_or_ge req.size best.size with hrb | hrb
            · simp only [min_eq_left hrb.le, if_pos hrb]
              have hm2 : sizeSumSell
                  (⟨best.order_id, best.size - req.size,
                    best.price, best.timestamp⟩ :: s') +
                  (⟨best.order_id, best.size - req.size,
                    best.price, best.timestamp⟩ :: s').length < n := by
                have hr1 : 1 ≤ req.size := hreq
                simp only [sizeSumSell, List.map_cons, List.sum_cons,
                  List.length_cons] at hm hsum ⊢
                omega
              rw [ih _ hm2 _ le_rfl a b _ _ (by omega) (by omega)]
            · simp only [min_eq_right hrb, lt_self_iff_false, if_false, ite_false]
              have hm2 : sizeSumSell s' + s'.length < n := by omega
              rw [ih _ hm2 _ le_rfl a b _ _ (by omega) (by omega)]

theorem match_sell_go_irrel (tk : String) (req : NewOrderRequest) (hreq : 0 < req.size) :
    ∀ (n : ℕ) (buys : List BuyOrder), sizeSumBuy buys + buys.length ≤ n →
      ∀ (f₁ f₂ : ℕ) (left : ℕ) (del : Finset ℕ), n < f₁ → n < f₂ →
        match_sell_go tk req f₁ left buys del = match_sell_go tk req f₂ left buys del := by
  intro n
  induction n using Nat.strong_induction_on with
  | _ n ih =>
      intro buys hm f₁ f₂ left del hf₁ hf₂
      obtain ⟨a, rfl⟩ : ∃ a, f₁ = a + 1 := ⟨f₁ - 1, by omega⟩
      obtain ⟨b, rfl⟩ : ∃ b, f₂ = b + 1 := ⟨f₂ - 1, by omega⟩
      simp only [match_sell_go]
      rcases hb : get_best_buy_order buys del with ⟨ob, s', d'⟩
      cases ob with
      | none => rfl
      | some best =>
          by_cases hstop : best.price < req.price ∨ left = 0
          · simp only [hstop, if_pos]
          · simp only [hstop, if_neg, ite_false]
            obtain ⟨hlen, hsum⟩ := get_best_buy_spec hb
            rcases Nat.lt_or_ge req.size best.size with hrb | hrb
            · simp only [min_eq_left hrb.le, if_pos hrb]
              have hm2 : sizeSumBuy
                  (⟨best.order_id, best.size - req.size,
                    best.price, best.timestamp⟩ :: s') +
                  (⟨best.order_id, best.size - req.size,
                    best.price, best.timestamp⟩ :: s').length < n := by
                have hr1 : 1 ≤ req.size := hreq
                simp only [sizeSumBuy, List.map_cons, List.sum_cons,
                  List.length_cons] at hm hsum ⊢
                omega
              rw [ih _ hm2 _ le_rfl a b _ _ (by omega) (by omega)]
            · simp only [min_eq_right hrb, lt_self_iff_false, if_false, ite_false]
              have hm2 : sizeSumBuy s' + s'.length < n := by omega
              rw [ih _ hm2 _ le_rfl a b _ _ (by omega) (by omega)]

/-- The bounded buy-side loop satisfies exactly the recurrence of the
source's `while let` loop (for the sizes the portal can send, `size > 0`):
this certifies that `match_buy_loop` IS the source loop. -/
theorem match_buy_loop_unfold (tk : String) (req : NewOrderRequest)
    (hreq : 0 < req.size) (left : ℕ) (sells : List SellOrder) (del : Finset ℕ) :
    match_buy_loop tk req left sells del =
      match get_best_sell_order sells del with
      | (none, sells', del') => ⟨left, sells', del', []⟩
      | (some best, sells', del') =>
          if req.price < best.price ∨ left = 0 then ⟨left, best :: sells', del', []⟩
          else
            let fill_size := min req.size best.size
            let fill_price := best.price
            let maker_logs := generate_trade_log tk best.order_id fill_size fill_price
            if fill_size < best.size then
              let r := match_buy_loop tk req (wrapSub left fill_size)
                (⟨best.order_id, best.size - fill_size, best.price, best.timestamp⟩ :: sells')
                del'
              ⟨r.left, r.sells, r.deleted,
               maker_logs ++ generate_trade_log tk req.order_id fill_size fill_price ++ r.logs⟩
            else
              let r := match_buy_loop tk req (wrapSub left fill_size) sells' del'
              ⟨r.left, r.sells, r.deleted,
               maker_logs ++ [.OrderLog (.OrderDead ⟨best.order_id⟩)]
                 ++ generate_trade_log tk req.order_id fill_size fill_price ++ r.logs⟩ := by
  unfold match_buy_loop
  conv_lhs => rw [match_buy_go]
  rcases hb : get_best_sell_order sells del with ⟨ob, s', d'⟩
  cases ob with
  | none => rfl
  | some best =>
      by_cases hstop : req.price < best.price ∨ left = 0
      · simp only [hstop, if_pos]
      · simp only [hstop, if_neg, ite_false]
        obtain ⟨hlen, hsum⟩ := get_best_sell_spec hb
        rcases Nat.lt_or_ge req.size best.size with hrb | hrb
        · simp only [min_eq_left hrb.le, if_pos hrb]
          rw [match_buy_go_irrel tk req hreq
            (sizeSumSell (⟨best.order_id, best.size - req.size,
              best.price, best.timestamp⟩ :: s') +
             (⟨best.order_id, best.size - req.size,
              best.price, best.timestamp⟩ :: s').length) _ le_rfl _ _ _ _
            (by
              have hr1 : 1 ≤ req.size := hreq
              simp only [sizeSumSell, List.map_cons, List.sum_cons, List.length_cons] at hsum ⊢
              omega)
            (Nat.lt_succ_self _)]
        · simp only [min_eq_right hrb, lt_self_iff_false, if_false, ite_false]
          rw [match_buy_go_irrel tk req hreq (sizeSumSell s' + s'.length) _ le_rfl _ _ _ _
            (by omega) (Nat.lt_succ_self _)]

/-- Sell-side analogue of `match_buy_loop_unfold`. -/
theorem match_sell_loop_unfold (tk : String) (req : NewOrderRequest)
    (hreq : 0 < req.size) (left : ℕ) (buys : List BuyOrder) (del : Finset ℕ) :
    match_sell_loop tk req left buys del =
      match get_best_buy_order buys del with
      | (none, buys', del') => ⟨left, buys', del', []⟩
      | (some best, buys', del') =>
          if best.price < req.price ∨ left = 0 then ⟨left, best :: buys', del', []⟩
          else
            let fill_size := min req.size best.size
            let fill_price := best.price
            let maker_logs := generate_trade_log tk best.order_id fill_size fill_price
            if fill_size < best.size then
              let r := match_sell_loop tk req (wrapSub left fill_size)
                (⟨best.order_id, best.size - fill_size, best.price, best.timestamp⟩ :: buys')
                del'
              ⟨r.left, r.buys, r.deleted,
               maker_logs ++ generate_trade_log tk req.order_id fill_size fill_price ++ r.logs⟩
            else
              let r := match_sell_loop tk req (wrapSub left fill_size) buys' del'
              ⟨r.left, r.buys, r.deleted,
               maker_logs ++ [.OrderLog (.OrderDead ⟨best.order_id⟩)]
                 ++ generate_trade_log tk req.order_id fill_size fill_price ++ r.logs⟩ := by
  unfold match_sell_loop
  conv_lhs => rw [match_sell_go]
  rcases hb : get_best_buy_order buys del with ⟨ob, s', d'⟩
  cases ob with
  | none => rfl
  | some best =>
      by_cases hstop : best.price < req.price ∨ left = 0
      · simp only [hstop, if_pos]
      · simp only [hstop, if_neg, ite_false]
        obtain ⟨hlen, hsum⟩ := get_best_buy_spec hb
        rcases Nat.lt_or_ge req.size best.size with hrb | hrb
        · simp only [min_eq_left hrb.le, if_pos hrb]
          rw [match_sell_go_irrel tk req hreq
            (sizeSumBuy (⟨best.order_id, best.size - req.size,
              best.price, best.timestamp⟩ :: s') +
             (⟨best.order_id, best.size - req.size,
              best.price, best.timestamp⟩ :: s').length) _ le_rfl _ _ _ _
            (by
              have hr1 : 1 ≤ req.size := hreq
              simp only [sizeSumBuy, List.map_cons, List.sum_cons, List.length_cons] at hsum ⊢
              omega)
            (Nat.lt_succ_self _)]
        · simp only [min_eq_right hrb, lt_self_iff_false, if_false, ite_false]
          rw [match_sell_go_irrel tk req hreq (sizeSumBuy s' + s'.length) _ le_rfl _ _ _ _
            (by omega) (Nat.lt_succ_self _)]

/-! ## Claim C1 — fill size at each iteration of the matching loop

The claim says the engine trades `min(left, best.size)` at every iteration,
so that `left` never goes below zero and the total filled quantity never
exceeds the incoming order's size. The source instead computes
`fill_size = min(req.size, best.size)` from the ORIGINAL request size
(orderbook.rs:87 and orderbook.rs:155), which over-fills as soon as a second
resting order is larger than the remaining quantity.
-/

/-- C1: counterexample evaluation. Resting sells 60@5 (t=0) and 50@5 (t=1);
an incoming limit Day buy of 100 @ 10 fills 60 in the first iteration
(`left = 40`), then fills `min(100, 50) = 50 ≠ min(40, 50)` in the second,
for a total filled quantity of 110 > 100; `left_size` wraps below zero
(u32) to 4294967286 and the order even rests with that size. This refutes
the claim as stated (the maker-price part of the claim does hold). -/
theorem C1_matching_loop_overfills :
    handle_new_order bkC1 reqC1 =
      (⟨"AAPL", [⟨100, 4294967286, 10, 2⟩], [], ∅⟩,
       [.OrderLog (.OrderFill ⟨1, 60, 5⟩), .EventLog (.OrderExecuted ⟨1, "AAPL", 60, 5⟩),
        .OrderLog (.OrderDead ⟨1⟩),
        .OrderLog (.OrderFill ⟨100, 60, 5⟩), .EventLog (.OrderExecuted ⟨100, "AAPL", 60, 5⟩),
        .OrderLog (.OrderFill ⟨2, 50, 5⟩), .EventLog (.OrderExecuted ⟨2, "AAPL", 50, 5⟩),
        .OrderLog (.OrderDead ⟨2⟩),
        .OrderLog (.OrderFill ⟨100, 50, 5⟩), .EventLog (.OrderExecuted ⟨100, "AAPL", 50, 5⟩),
        .EventLog (.OrderAdded ⟨100, "AAPL", .Buy, 4294967286, 10⟩)]) ∧
    fills_for (handle_new_order bkC1 reqC1).2 100 = 110 ∧
    reqC1.size = 100 := by
  have g2 : get_best_sell_order [(⟨1, 60, 5, 0⟩ : SellOrder), ⟨2, 50, 5, 1⟩] ∅ =
      (some ⟨1, 60, 5, 0⟩, [⟨2, 50, 5, 1⟩], ∅) := by
    rw [get_best_sell_order_unfold]
    norm_num [popMax, sellOrderCmp, cmp, cmpUsing]
    rfl
  have g1 : get_best_sell_order [(⟨2, 50, 5, 1⟩ : SellOrder)] ∅ =
      (some ⟨2, 50, 5, 1⟩, [], ∅) := by
    rw [get_best_sell_order_unfold]
    norm_num [popMax]
  have g0 : get_best_sell_order ([] : List SellOrder) ∅ = (none, [], ∅) := by
    rw [get_best_sell_order_unfold]
    norm_num [popMax]
  have l1 : match_buy_loop "AAPL" (⟨100, .Buy, 100, 10, 2, .Limit, .Day⟩ : NewOrderRequest)
      40 [⟨2, 50, 5, 1⟩] ∅ =
      ⟨4294967286, [], ∅,
       [.OrderLog (.OrderFill ⟨2, 50, 5⟩), .EventLog (.OrderExecuted ⟨2, "AAPL", 50, 5⟩),
        .OrderLog (.OrderDead ⟨2⟩),
        .OrderLog (.OrderFill ⟨100, 50, 5⟩),
        .EventLog (.OrderExecuted ⟨100, "AAPL", 50, 5⟩)]⟩ := by
    rw [match_buy_loop_unfold _ _ (by norm_num), g1]
    norm_num [generate_trade_log, wrapSub]
    rw [match_buy_loop_unfold _ _ (by norm_num), g0]
    norm_num
  have l2 : match_buy_loop "AAPL" (⟨100, .Buy, 100, 10, 2, .Limit, .Day⟩ : NewOrderRequest)
      100 [⟨1, 60, 5, 0⟩, ⟨2, 50, 5, 1⟩] ∅ =
      ⟨4294967286, [], ∅,
       [.OrderLog (.OrderFill ⟨1, 60, 5⟩), .EventLog (.OrderExecuted ⟨1, "AAPL", 60, 5⟩),
        .OrderLog (.OrderDead ⟨1⟩),
        .OrderLog (.OrderFill ⟨100, 60, 5⟩), .EventLog (.OrderExecuted ⟨100, "AAPL", 60, 5⟩),
        .OrderLog (.OrderFill ⟨2, 50, 5⟩), .EventLog (.OrderExecuted ⟨2, "AAPL", 50, 5⟩),
        .OrderLog (.OrderDead ⟨2⟩),
        .OrderLog (.OrderFill ⟨100, 50, 5⟩),
        .EventLog (.OrderExecuted ⟨100, "AAPL", 50, 5⟩)]⟩ := by
    rw [match_buy_loop_unfold _ _ (by norm_num), g2]
    norm_num [generate_trade_log, wrapSub, l1]
  refine ⟨?_, ?_, rfl⟩ <;>
    norm_num [handle_new_order, handle_new_buy_order, bkC1, reqC1, l2, fills_for]

/-! ## Claim C2 — market-order price fill-in

The claim says the portal replaces the request price if and only if the
request is a Market order, forwarding a Limit order's price unchanged.
`fill_in_market_order` (portal.rs:131-156) never inspects
`limit_or_market`, and `process_portal_new_order` applies it to EVERY
request that passes the tick/lot check, so a Limit order's price is
also replaced (by the best opposite price, or the close price on an
empty book).
-/

/-- C2: counterexample evaluation. On an empty AAPL book (close = 100) a
LIMIT Day buy 10 @ 10 is accepted with its price replaced by the close
price 100: the order record stores limit_price 100, the advance drawdown
reserves 100 × 10 = 1000 (cash 100000 → 99000), and the OrderAdded event
carries limit_price 100 — refuting "a Limit order's price is forwarded
unchanged to the risk check, the order record, and the matching engine". -/
theorem C2_limit_price_replaced :
    reqC2.limit_or_market = .Limit ∧ reqC2.price = 10 ∧
    process_portal_new_order stC2 7 1 reqC2 =
      some
        ({ orderbooks := [("AAPL", ⟨"AAPL", [⟨1, 10, 100, 3⟩], [], ∅⟩)]
           events := [.OrderAdded ⟨1, "AAPL", .Buy, 10, 100⟩]
           order_bind := [(1, ⟨7, "AAPL", .Buy, 100, 10⟩)]
           order_resting := [(1, 10)]
           accounts := [(7, ⟨7, "alice", "pw", 99000, []⟩)]
           stocks := [("AAPL", ⟨100, 10, 1, "Apple Inc"⟩)]
           last_order_id := 1 },
         [.OrderAck 7 1 1, .IncrementalEvent (.OrderAdded ⟨1, "AAPL", .Buy, 10, 100⟩)]) := by
  have g0 : get_best_sell_order ([] : List SellOrder) ∅ = (none, [], ∅) := by
    rw [get_best_sell_order_unfold]
    norm_num [popMax]
  have l0 : match_buy_loop "AAPL" (⟨1, .Buy, 10, 100, 3, .Limit, .Day⟩ : NewOrderRequest)
      10 [] ∅ = ⟨10, [], ∅, []⟩ := by
    rw [match_buy_loop_unfold _ _ (by norm_num), g0]
  refine ⟨rfl, rfl, ?_⟩
  norm_num [process_portal_new_order, check_valid_order, check_valid_price, check_valid_size,
    mlookup, minsert, fill_in_market_order, obm_best_sell_price, best_sell_price,
    get_close_price, make_potential_order, accounts_valid_potential_order,
    account_valid_potential_order, generate_order_id, update_by_potential_order,
    accounts_update, get_upd_inv_id, account_update_one, add_new_order, process_new_order,
    obm_handle_request, orderbook_handle_request, handle_new_order, handle_new_buy_order,
    process_logs, process_log, order_info_update_by_event, stC2, reqC2, mk_portal, g0, l0]

/-! ## Claim C10 — atomicity of rejection

A tick/lot rejection leaves the portal untouched. But the market-price
fill-in runs BEFORE the pre-trade risk check and its best-price query
garbage-collects lazily-deleted entries (and their tombstones) of the
request ticker's opposite heap, so a risk-check rejection can change the
orderbook.
-/

/-- C10: counterexample. The AAPL book holds one lazily-deleted sell
(heap entry id 1, tombstone {1}); the investor has no cash. The NewOrder
is rejected by the risk check, yet the returned state's AAPL book has had
the entry and its tombstone collected — the orderbook IS touched, so the
claim as stated is false. (All other portal state is unchanged.) -/
theorem C10_reject_not_atomic_counterexample :
    process_portal_new_order stC10 7 1 reqC10 =
      some ({ stC10 with orderbooks := [("AAPL", ⟨"AAPL", [], [], ∅⟩)] },
        [.OrderReject 7 1
          "Invalid new order request: Insufficient cash or lot to complete the order"]) ∧
    ({ stC10 with orderbooks := [("AAPL", ⟨"AAPL", [], [], ∅⟩)] } : Portal) ≠ stC10 := by
  have g : get_best_sell_order [(⟨1, 10, 100, 0⟩ : SellOrder)] {1} = (none, [], ∅) := by
    rw [get_best_sell_order_unfold]
    norm_num [popMax]
    rw [get_best_sell_order_unfold]
    norm_num [popMax]
  constructor
  · norm_num [process_portal_new_order, check_valid_order, check_valid_price, check_valid_size,
      mlookup, minsert, fill_in_market_order, obm_best_sell_price, best_sell_price,
      get_close_price, make_potential_order, accounts_valid_potential_order,
      account_valid_potential_order, stC10, reqC10, g]
  · intro h
    have := congrArg (fun st => (mlookup st.orderbooks "AAPL").map
      (fun bk => bk.sell_orders.length)) h
    simp [stC10, mlookup] at this

/-! ## Claim C3 — post-loop insertion policy -/

/-- C3: after the matching loop ends with remaining quantity `left`: if
`left > 0` and the order is Limit and Day, the engine inserts a resting
order with size `left`, the order's price and timestamp into its own
side's heap and emits OrderAdded with `resting_size = left`; in every
other case it emits OrderDead for the incoming order id and inserts
nothing into its own heap. -/
theorem C3_engine_rest_or_dead (bk : OrderBook) (req : NewOrderRequest) :
    (req.direction = Direction.Buy →
      (let r := match_buy_loop bk.ticker req req.size bk.sell_orders bk.lazy_deleted
       (0 < r.left ∧ req.limit_or_market = .Limit ∧ req.time_in_force = .Day →
         handle_new_order bk req =
           ({ bk with
               sell_orders := r.sells
               lazy_deleted := r.deleted
               buy_orders := ⟨req.order_id, r.left, req.price, req.timestamp⟩ :: bk.buy_orders },
            r.logs ++ [.EventLog (.OrderAdded
              ⟨req.order_id, bk.ticker, req.direction, r.left, req.price⟩)])) ∧
       (¬(0 < r.left ∧ req.limit_or_market = .Limit ∧ req.time_in_force = .Day) →
         handle_new_order bk req =
           ({ bk with sell_orders := r.sells, lazy_deleted := r.deleted },
            r.logs ++ [.OrderLog (.OrderDead ⟨req.order_id⟩)])))) ∧
    (req.direction = Direction.Sell →
      (let r := match_sell_loop bk.ticker req req.size bk.buy_orders bk.lazy_deleted
       (0 < r.left ∧ req.limit_or_market = .Limit ∧ req.time_in_force = .Day →
         handle_new_order bk req =
           ({ bk with
               buy_orders := r.buys
               lazy_deleted := r.deleted
               sell_orders := ⟨req.order_id, r.left, req.price, req.timestamp⟩ :: bk.sell_orders },
            r.logs ++ [.EventLog (.OrderAdded
              ⟨req.order_id, bk.ticker, req.direction, r.left, req.price⟩)])) ∧
       (¬(0 < r.left ∧ req.limit_or_market = .Limit ∧ req.time_in_force = .Day) →
         handle_new_order bk req =
           ({ bk with buy_orders := r.buys, lazy_deleted := r.deleted },
            r.logs ++ [.OrderLog (.OrderDead ⟨req.order_id⟩)])))) := by
  constructor
  · intro hdir
    refine ⟨fun hc => ?_, fun hc => ?_⟩ <;>
      · simp only [handle_new_order, hdir, handle_new_buy_order, hc, if_pos, if_neg,
          not_false_eq_true, ite_true, ite_false]
        try simp
  · intro hdir
    refine ⟨fun hc => ?_, fun hc => ?_⟩ <;>
      · simp only [handle_new_order, hdir, handle_new_sell_order, hc, if_pos, if_neg,
          not_false_eq_true, ite_true, ite_false]
        try simp

/-- C3 witness: a limit Day buy 10 @ 5 on an empty book matches nothing
(`left = 10 > 0`), rests with size 10 and emits exactly one OrderAdded. -/
theorem C3_engine_rest_or_dead_witness :
    handle_new_order ⟨"AAPL", [], [], ∅⟩ ⟨1, .Buy, 10, 5, 0, .Limit, .Day⟩ =
      (⟨"AAPL", [⟨1, 10, 5, 0⟩], [], ∅⟩,
       [.EventLog (.OrderAdded ⟨1, "AAPL", .Buy, 10, 5⟩)]) := by
  have g0 : get_best_sell_order ([] : List SellOrder) ∅ = (none, [], ∅) := by
    rw [get_best_sell_order_unfold]
    norm_num [popMax]
  have hr : match_buy_loop "AAPL" (⟨1, .Buy, 10, 5, 0, .Limit, .Day⟩ : NewOrderRequest)
      10 [] ∅ = ⟨10, [], ∅, []⟩ := by
    rw [match_buy_loop_unfold _ _ (by norm_num), g0]
  have h := ((C3_engine_rest_or_dead ⟨"AAPL", [], [], ∅⟩
    ⟨1, .Buy, 10, 5, 0, .Limit, .Day⟩).1 rfl).1
  simp only [hr] at h
  simpa using h (by norm_num)

/-! ## Claim C4 — OrderResponse → account updates -/

/-- C4: a Buy fill credits cash by `fill_size × (limit_price − fill_price)`
and the position by `fill_size`; a Sell fill credits cash by
`fill_size × fill_price`; a Buy dead with a live resting entry refunds
`resting_size × limit_price` to cash; a Sell dead with a live resting
entry credits the position by `resting_size`; a dead with no resting
entry produces no account update. -/
theorem C4_orderresponse_account_updates (rec : OrderRecord) (f : OrderFillResponse)
    (d : OrderDeadResponse) (rs : ℕ) (ors : Option ℕ) :
    (rec.direction = .Buy →
      orderresponse_to_acc_update (.OrderFill f) rec ors =
        [.UpdCash rec.inv_id ((f.fill_size : ℚ) * (rec.limit_price - f.fill_price)),
         .AddPos rec.inv_id rec.ticker f.fill_size]) ∧
    (rec.direction = .Sell →
      orderresponse_to_acc_update (.OrderFill f) rec ors =
        [.UpdCash rec.inv_id ((f.fill_size : ℚ) * f.fill_price)]) ∧
    (rec.direction = .Buy →
      orderresponse_to_acc_update (.OrderDead d) rec (some rs) =
        [.UpdCash rec.inv_id ((rs : ℚ) * rec.limit_price)]) ∧
    (rec.direction = .Sell →
      orderresponse_to_acc_update (.OrderDead d) rec (some rs) =
        [.AddPos rec.inv_id rec.ticker rs]) ∧
    orderresponse_to_acc_update (.OrderDead d) rec none = [] := by
  refine ⟨fun h => ?_, fun h => ?_, fun h => ?_, fun h => ?_, ?_⟩ <;>
    first
      | simp [orderresponse_to_acc_update, h]
      | cases hd : rec.direction <;> simp [orderresponse_to_acc_update, hd]

/-- C4 witness: a Buy fill of 30 @ 8 against limit 10 credits
`30 × (10 − 8)` cash and 30 shares. -/
theorem C4_orderresponse_account_updates_witness :
    orderresponse_to_acc_update (.OrderFill ⟨5, 30, 8⟩) ⟨7, "AAPL", .Buy, 10, 40⟩ none =
      [.UpdCash 7 ((30 : ℚ) * ((10 : ℚ) - 8)), .AddPos 7 "AAPL" 30] :=
  (C4_orderresponse_account_updates ⟨7, "AAPL", .Buy, 10, 40⟩ ⟨5, 30, 8⟩ ⟨5⟩ 0 none).1 rfl

/-! ## Claim C5 — cancel validity and the engine's cancel output -/

/-- `OrderInfo::valid_cancel_order` returns true exactly when the order
has a non-zero resting entry and the record's owner matches. -/
theorem valid_cancel_order_iff (bind : List (ℕ × OrderRecord))
    (resting : List (ℕ × ℕ)) (oid inv : ℕ) :
    (valid_cancel_order bind resting oid inv).1 = true ↔
      (∃ s, mlookup resting oid = some s ∧ 0 < s ∧
        ∃ rec, mlookup bind oid = some rec ∧ rec.inv_id = inv) := by
  unfold valid_cancel_order get_resting
  cases hr : mlookup resting oid with
  | none => simp [hr]
  | some s =>
      by_cases hs : s = 0
      · subst hs
        simp [hr]
      · simp only [hr, hs, if_neg, ite_false]
        cases hb : mlookup bind oid with
        | none => simp [hb]
        | some rec =>
            simp [hb, Option.elim]
            intro _
            exact Nat.pos_of_ne_zero hs

/-- C5: the portal answers a CancelOrder with the single CancelReject
"Invalid cancel order request" if and only if it is NOT the case that the
order has a non-zero resting entry whose record's inv_id matches the
requester; and the engine's cancel handler emits exactly OrderDead then
OrderRemoved (in that order) while adding the id to the tombstone set. -/
theorem C5_cancel_validity :
    (∀ (st : Portal) (inv seq oid : ℕ),
      (process_portal_cancel_order st inv seq oid).map Prod.snd =
        some [.CancelReject inv seq "Invalid cancel order request"] ↔
      ¬(∃ s, mlookup st.order_resting oid = some s ∧ 0 < s ∧
          ∃ rec, mlookup st.order_bind oid = some rec ∧ rec.inv_id = inv)) ∧
    (∀ (bk : OrderBook) (r : CancelOrderRequest),
      handle_cancel_order bk r =
        ({ bk with lazy_deleted := insert r.order_id bk.lazy_deleted },
         [.OrderLog (.OrderDead ⟨r.order_id⟩), .EventLog (.OrderRemoved ⟨r.order_id⟩)])) := by
  constructor
  · intro st inv seq oid
    rw [← valid_cancel_order_iff st.order_bind st.order_resting oid inv]
    rcases hvv : valid_cancel_order st.order_bind st.order_resting oid inv with ⟨vb, vr⟩
    cases vb with
    | false =>
        simp [process_portal_cancel_order, hvv]
    | true =>
        have hcond := (valid_cancel_order_iff st.order_bind st.order_resting oid inv).1
          (by rw [hvv])
        obtain ⟨s, hs, hspos, rec, hrec, hinv⟩ := hcond
        simp only [process_portal_cancel_order, hvv, ite_true, find_ticker_by_order_id,
          hrec, Option.map_some']
        cases hbk : mlookup st.orderbooks rec.ticker with
        | none =>
            simp [obm_handle_request, hbk, process_logs]
        | some bk =>
            simp [obm_handle_request, hbk, orderbook_handle_request, handle_cancel_order,
              process_logs, process_log, hrec, get_resting, get_resp_order_id]
  · intro bk r
    rfl

/-! ## Claim C6 — tick/lot rejection -/

theorem check_valid_price_false_iff (p mpf : ℚ) :
    check_valid_price p mpf = false ↔
      ¬ |p / mpf - (⌊p / mpf⌋ : ℚ)| < 1 / 2 ^ 23 := by
  simp only [check_valid_price, decide_eq_false_iff_not]

theorem check_valid_size_true_iff (s lot : ℕ) :
    check_valid_size s lot = true ↔ (lot ∣ s ∧ 0 < s) := by
  simp only [check_valid_size, Bool.and_eq_true, beq_iff_eq, decide_eq_true_eq,
    Nat.dvd_iff_mod_eq_zero]

/-- `StockManager::check_valid_order` fails exactly when the ticker is
unknown, the price is off-tick (the source's epsilon test), the size is
zero or the size is not a multiple of the lot size. -/
theorem check_valid_order_eq_false_iff (stocks : List (String × StockRecord))
    (tk : String) (p : ℚ) (s : ℕ) :
    check_valid_order stocks tk p s = false ↔
      (mlookup stocks tk = none ∨
        ∃ rec, mlookup stocks tk = some rec ∧
          (¬ |p / rec.mpf - (⌊p / rec.mpf⌋ : ℚ)| < 1 / 2 ^ 23 ∨
           s = 0 ∨ ¬ (rec.lot_size ∣ s))) := by
  unfold check_valid_order
  cases hl : mlookup stocks tk with
  | none => simp [hl]
  | some rec =>
      simp only [hl, Option.elim, Option.some.injEq, reduceCtorEq, false_or]
      constructor
      · intro h
        refine ⟨rec, rfl, ?_⟩
        rcases Bool.and_eq_false_iff.1 h with hp | hs
        · left
          exact (check_valid_price_false_iff _ _).1 hp
        · have : ¬ (rec.lot_size ∣ s ∧ 0 < s) := by
            rw [← check_valid_size_true_iff]
            simp [hs]
          rcases Decidable.not_and_iff_or_not.1 this with h1 | h2
          · right; right; exact h1
          · right; left; omega
      · rintro ⟨rec', hrec', hbad⟩
        subst hrec'
        rw [Bool.and_eq_false_iff]
        rcases hbad with hp | hs0 | hd
        · left
          exact (check_valid_price_false_iff _ _).2 hp
        · right
          rw [← Bool.not_eq_true, check_valid_size_true_iff]
          omega
        · right
          rw [← Bool.not_eq_true, check_valid_size_true_iff]
          tauto

/-- C6: the portal answers a NewOrder with the single OrderReject
"Invalid new order request: Invalid price or size" if and only if the
ticker is unknown, or the price is not an integral multiple of the
ticker's mpf (tested as `|price/mpf − ⌊price/mpf⌋| < f32::EPSILON`), or
the size is zero, or the size is not divisible by the lot size. -/
theorem C6_tick_lot_reject_iff (st : Portal) (inv seq : ℕ) (req : PortalNewOrderRequest) :
    (process_portal_new_order st inv seq req).map Prod.snd =
      some [.OrderReject inv seq "Invalid new order request: Invalid price or size"] ↔
    (mlookup st.stocks req.ticker = none ∨
      ∃ rec, mlookup st.stocks req.ticker = some rec ∧
        (¬ |req.price / rec.mpf - (⌊req.price / rec.mpf⌋ : ℚ)| < 1 / 2 ^ 23 ∨
         req.size = 0 ∨ ¬ (rec.lot_size ∣ req.size))) := by
  rw [← check_valid_order_eq_false_iff st.stocks req.ticker req.price req.size]
  cases hcv : check_valid_order st.stocks req.ticker req.price req.size with
  | false => simp [process_portal_new_order, hcv]
  | true =>
      simp only [process_portal_new_order, hcv, ite_true, reduceCtorEq, iff_false]
      cases hf : fill_in_market_order st req with
      | none => simp
      | some p =>
          obtain ⟨req', st₂⟩ := p
          cases hrv : accounts_valid_potential_order st₂.accounts inv
            (make_potential_order req') with
          | false => simp [hrv]
          | true =>
              simp only [hrv, ite_true]
              cases hp : process_new_order
                  { st₂ with
                      last_order_id := st₂.last_order_id + 1
                      accounts := update_by_potential_order st₂.accounts inv
                        (make_potential_order req')
                      order_bind := add_new_order st₂.order_bind
                        (st₂.last_order_id + 1) inv req' }
                  (st₂.last_order_id + 1) req' with
              | none => simp [generate_order_id, hp]
              | some q => simp [generate_order_id, hp]

/-! ## Claim C7 — price-time priority of the heap ordering and pop-best -/

theorem buyOrderCmp_gt_iff (a b : BuyOrder) :
    buyOrderCmp a b = .gt ↔
      (b.price < a.price ∨ (a.price = b.price ∧ a.timestamp < b.timestamp)) := by
  unfold buyOrderCmp
  rcases lt_trichotomy a.price b.price with h | h | h
  · rw [(cmp_eq_lt_iff _ _).2 h]
    simp [lt_asymm h, h.ne]
  · rw [(cmp_eq_eq_iff _ _).2 h]
    rcases lt_trichotomy a.timestamp b.timestamp with ht | ht | ht
    · rw [(cmp_eq_lt_iff _ _).2 ht]
      simp [h, ht]
    · rw [(cmp_eq_eq_iff _ _).2 ht]
      simp [h, ht]
    · rw [(cmp_eq_gt_iff _ _).2 ht]
      simp [h, ht, lt_asymm ht, h.le.ge]
  · rw [(cmp_eq_gt_iff _ _).2 h]
    simp [h]

theorem buyOrderCmp_lt_iff (a b : BuyOrder) :
    buyOrderCmp a b = .lt ↔
      (a.price < b.price ∨ (a.price = b.price ∧ b.timestamp < a.timestamp)) := by
  unfold buyOrderCmp
  rcases lt_trichotomy a.price b.price with h | h | h
  · rw [(cmp_eq_lt_iff _ _).2 h]
    simp [h]
  · rw [(cmp_eq_eq_iff _ _).2 h]
    rcases lt_trichotomy a.timestamp b.timestamp with ht | ht | ht
    · rw [(cmp_eq_lt_iff _ _).2 ht]
      simp [h, ht, lt_asymm ht]
    · rw [(cmp_eq_eq_iff _ _).2 ht]
      simp [h, ht]
    · rw [(cmp_eq_gt_iff _ _).2 ht]
      simp [h, ht]
  · rw [(cmp_eq_gt_iff _ _).2 h]
    simp [lt_asymm h, (ne_of_gt h)]

theorem sellOrderCmp_gt_iff (a b : SellOrder) :
    sellOrderCmp a b = .gt ↔
      (a.price < b.price ∨ (a.price = b.price ∧ a.timestamp < b.timestamp)) := by
  unfold sellOrderCmp
  rcases lt_trichotomy a.price b.price with h | h | h
  · rw [(cmp_eq_lt_iff _ _).2 h]
    simp [h]
  · rw [(cmp_eq_eq_iff _ _).2 h]
    rcases lt_trichotomy a.timestamp b.timestamp with ht | ht | ht
    · rw [(cmp_eq_lt_iff _ _).2 ht]
      simp [h, ht]
    · rw [(cmp_eq_eq_iff _ _).2 ht]
      simp [h, ht]
    · rw [(cmp_eq_gt_iff _ _).2 ht]
      simp [h, ht, lt_asymm ht]
  · rw [(cmp_eq_gt_iff _ _).2 h]
    simp [lt_asymm h, (ne_of_gt h)]

theorem sellOrderCmp_lt_iff (a b : SellOrder) :
    sellOrderCmp a b = .lt ↔
      (b.price < a.price ∨ (a.price = b.price ∧ b.timestamp < a.timestamp)) := by
  unfold sellOrderCmp
  rcases lt_trichotomy a.price b.price with h | h | h
  · rw [(cmp_eq_lt_iff _ _).2 h]
    simp [lt_asymm h, h.ne]
  · rw [(cmp_eq_eq_iff _ _).2 h]
    rcases lt_trichotomy a.timestamp b.timestamp with ht | ht | ht
    · rw [(cmp_eq_lt_iff _ _).2 ht]
      simp [h, ht, lt_asymm ht]
    · rw [(cmp_eq_eq_iff _ _).2 ht]
      simp [h, ht]
    · rw [(cmp_eq_gt_iff _ _).2 ht]
      simp [h, ht]
  · rw [(cmp_eq_gt_iff _ _).2 h]
    simp [h]

theorem buyOrderCmp_self_ne_lt (a : BuyOrder) : buyOrderCmp a a ≠ .lt := by
  rw [Ne, buyOrderCmp_lt_iff]
  simp

theorem sellOrderCmp_self_ne_lt (a : SellOrder) : sellOrderCmp a a ≠ .lt := by
  rw [Ne, sellOrderCmp_lt_iff]
  simp

theorem buyOrderCmp_flip (a b : BuyOrder) (h : buyOrderCmp a b = .lt) :
    buyOrderCmp b a ≠ .lt := by
  rw [buyOrderCmp_lt_iff] at h
  rw [Ne, buyOrderCmp_lt_iff]
  rcases h with h | ⟨he, ht⟩
  · rintro (h' | ⟨he', _⟩)
    · exact absurd h' (lt_asymm h)
    · exact absurd he' (ne_of_gt h)
  · rintro (h' | ⟨_, ht'⟩)
    · exact absurd h' (by rw [he]; exact lt_irrefl _)
    · omega
  
theorem sellOrderCmp_flip (a b : SellOrder) (h : sellOrderCmp a b = .lt) :
    sellOrderCmp b a ≠ .lt := by
  rw [sellOrderCmp_lt_iff] at h
  rw [Ne, sellOrderCmp_lt_iff]
  rcases h with h | ⟨he, ht⟩
  · rintro (h' | ⟨he', _⟩)
    · exact absurd h' (lt_asymm h)
    · exact absurd he' (ne_of_lt h)
  · rintro (h' | ⟨_, ht'⟩)
    · exact absurd h' (by rw [he]; exact lt_irrefl _)
    · omega

theorem buyOrderCmp_not_lt_trans (a b d : BuyOrder) (h1 : buyOrderCmp a b ≠ .lt)
    (h2 : buyOrderCmp b d ≠ .lt) : buyOrderCmp a d ≠ .lt := by
  rw [Ne, buyOrderCmp_lt_iff] at h1 h2 ⊢
  push_neg at h1 h2 ⊢
  obtain ⟨h1p, h1t⟩ := h1
  obtain ⟨h2p, h2t⟩ := h2
  refine ⟨le_trans h2p h1p, fun he => ?_⟩
  have hab : a.price = b.price := le_antisymm (he ▸ h2p) h1p
  have hbd : b.price = d.price := hab ▸ he
  have := h1t hab
  have := h2t hbd
  omega

theorem sellOrderCmp_not_lt_trans (a b d : SellOrder) (h1 : sellOrderCmp a b ≠ .lt)
    (h2 : sellOrderCmp b d ≠ .lt) : sellOrderCmp a d ≠ .lt := by
  rw [Ne, sellOrderCmp_lt_iff] at h1 h2 ⊢
  push_neg at h1 h2 ⊢
  obtain ⟨h1p, h1t⟩ := h1
  obtain ⟨h2p, h2t⟩ := h2
  refine ⟨le_trans h1p h2p, fun he => ?_⟩
  have hab : a.price = b.price := le_antisymm h1p (he ▸ h2p)
  have hbd : b.price = d.price := hab ▸ he
  have := h1t hab
  have := h2t hbd
  omega

theorem popMax_max {α : Type} {c : α → α → Ordering}
    (hself : ∀ a, c a a ≠ .lt)
    (hflip : ∀ a b, c a b = .lt → c b a ≠ .lt)
    (htrans : ∀ a b d, c a b ≠ .lt → c b d ≠ .lt → c a d ≠ .lt) :
    ∀ {l : List α} {m : α} {rest : List α}, popMax c l = some (m, rest) →
      ∀ x ∈ l, c m x ≠ .lt := by
  intro l
  induction l with
  | nil => intro m rest h; simp [popMax] at h
  | cons x xs ih =>
      intro m rest h x' hx'
      simp only [popMax] at h
      cases hp : popMax c xs with
      | none =>
          rw [hp] at h
          obtain ⟨rfl, rfl⟩ := by simpa using h
          have : xs = [] := (popMax_eq_none_iff c xs).1 hp
          subst this
          obtain rfl : x' = x := by simpa using hx'
          exact hself _
      | some p =>
          obtain ⟨m', r'⟩ := p
          rw [hp] at h
          by_cases hc : c x m' = .lt
          · simp only [hc, if_pos] at h
            obtain ⟨rfl, rfl⟩ := by simpa using h
            rcases List.mem_cons.1 hx' with rfl | hmem
            · exact hflip _ _ hc
            · exact ih hp _ hmem
          · simp only [hc, if_neg, ite_false] at h
            obtain ⟨rfl, rfl⟩ := by simpa using h
            rcases List.mem_cons.1 hx' with rfl | hmem
            · exact hself _
            · exact htrans _ _ _ hc (ih hp _ hmem)

theorem get_best_sell_max_aux :
    ∀ (n : ℕ) (heap : List SellOrder), heap.length ≤ n →
      ∀ (del : Finset ℕ) (b : SellOrder) (s' : List SellOrder) (d' : Finset ℕ),
        (heap.map SellOrder.order_id).Nodup →
        get_best_sell_order heap del = (some b, s', d') →
        b ∈ heap ∧ b.order_id ∉ del ∧
          ∀ x ∈ heap, x.order_id ∉ del → sellOrderCmp b x ≠ .lt := by
  intro n
  induction n with
  | zero =>
      intro heap hlen del b s' d' _ h
      have : heap = [] := List.length_eq_zero.1 (Nat.le_zero.1 hlen)
      subst this
      simp [get_best_sell_order, get_best_sell_go] at h
  | succ n ih =>
      intro heap hlen del b s' d' hnd h
      rw [get_best_sell_order_unfold] at h
      cases hp : popMax sellOrderCmp heap with
      | none => rw [hp] at h; simp at h
      | some p =>
          obtain ⟨m, rest⟩ := p
          rw [hp] at h
          have hperm := popMax_perm hp
          have hndrest : (m.order_id :: rest.map SellOrder.order_id).Nodup := by
            have := (hperm.map SellOrder.order_id).nodup_iff.1 hnd
            simpa using this
          have hmnotin : m.order_id ∉ rest.map SellOrder.order_id :=
            (List.nodup_cons.1 hndrest).1
          by_cases hd : m.order_id ∈ del
          · simp only [hd, if_pos] at h
            have hlr := popMax_length hp
            obtain ⟨hb1, hb2, hb3⟩ := ih rest (by omega) _ _ _ _
              (List.nodup_cons.1 hndrest).2 h
            have hbne : b.order_id ≠ m.order_id := by
              intro he
              exact hmnotin (he ▸ List.mem_map_of_mem SellOrder.order_id hb1)
            refine ⟨hperm.mem_iff.2 (List.mem_cons_of_mem _ hb1), ?_, ?_⟩
            · intro hbdel
              exact hb2 (Finset.mem_erase.2 ⟨hbne, hbdel⟩)
            · intro x hx hxdel
              rcases List.mem_cons.1 (hperm.mem_iff.1 hx) with rfl | hxr
              · exact absurd hd hxdel
              · exact hb3 x hxr fun hxe => hxdel (Finset.mem_of_mem_erase hxe)
          · simp only [hd, if_neg, ite_false] at h
            obtain ⟨rfl, rfl, rfl⟩ := by simpa using h
            refine ⟨popMax_mem hp, hd, ?_⟩
            intro x hx _
            exact popMax_max sellOrderCmp_self_ne_lt sellOrderCmp_flip
              sellOrderCmp_not_lt_trans hp x hx

theorem get_best_buy_max_aux :
    ∀ (n : ℕ) (heap : List BuyOrder), heap.length ≤ n →
      ∀ (del : Finset ℕ) (b : BuyOrder) (s' : List BuyOrder) (d' : Finset ℕ),
        (heap.map BuyOrder.order_id).Nodup →
        get_best_buy_order heap del = (some b, s', d') →
        b ∈ heap ∧ b.order_id ∉ del ∧
          ∀ x ∈ heap, x.order_id ∉ del → buyOrderCmp b x ≠ .lt := by
  intro n
  induction n with
  | zero =>
      intro heap hlen del b s' d' _ h
      have : heap = [] := List.length_eq_zero.1 (Nat.le_zero.1 hlen)
      subst this
      simp [get_best_buy_order, get_best_buy_go] at h
  | succ n ih =>
      intro heap hlen del b s' d' hnd h
      rw [get_best_buy_order_unfold] at h
      cases hp : popMax buyOrderCmp heap with
      | none => rw [hp] at h; simp at h
      | some p =>
          obtain ⟨m, rest⟩ := p
          rw [hp] at h
          have hperm := popMax_perm hp
          have hndrest : (m.order_id :: rest.map BuyOrder.order_id).Nodup := by
            have := (hperm.map BuyOrder.order_id).nodup_iff.1 hnd
            simpa using this
          have hmnotin : m.order_id ∉ rest.map BuyOrder.order_id :=
            (List.nodup_cons.1 hndrest).1
          by_cases hd : m.order_id ∈ del
          · simp only [hd, if_pos] at h
            have hlr := popMax_length hp
            obtain ⟨hb1, hb2, hb3⟩ := ih rest (by omega) _ _ _ _
              (List.nodup_cons.1 hndrest).2 h
            have hbne : b.order_id ≠ m.order_id := by
              intro he
              exact hmnotin (he ▸ List.mem_map_of_mem BuyOrder.order_id hb1)
            refine ⟨hperm.mem_iff.2 (List.mem_cons_of_mem _ hb1), ?_, ?_⟩
            · intro hbdel
              exact hb2 (Finset.mem_erase.2 ⟨hbne, hbdel⟩)
            · intro x hx hxdel
              rcases List.mem_cons.1 (hperm.mem_iff.1 hx) with rfl | hxr
              · exact absurd hd hxdel
              · exact hb3 x hxr fun hxe => hxdel (Finset.mem_of_mem_erase hxe)
          · simp only [hd, if_neg, ite_false] at h
            obtain ⟨rfl, rfl, rfl⟩ := by simpa using h
            refine ⟨popMax_mem hp, hd, ?_⟩
            intro x hx _
            exact popMax_max buyOrderCmp_self_ne_lt buyOrderCmp_flip
              buyOrderCmp_not_lt_trans hp x hx

/-- C7: the buy-order comparison ranks the higher price first and, at equal
price, the earlier timestamp first; the sell-order comparison ranks the
lower price first and, at equal price, the earlier timestamp first; and
pop-best returns a live (non-tombstoned) resting order of its side that
no other live order of that side outranks. -/
theorem C7_price_time_priority :
    (∀ a b : BuyOrder, buyOrderCmp a b = .gt ↔
        (b.price < a.price ∨ (a.price = b.price ∧ a.timestamp < b.timestamp))) ∧
    (∀ a b : SellOrder, sellOrderCmp a b = .gt ↔
        (a.price < b.price ∨ (a.price = b.price ∧ a.timestamp < b.timestamp))) ∧
    (∀ (heap : List BuyOrder) (del : Finset ℕ) (b : BuyOrder)
        (s' : List BuyOrder) (d' : Finset ℕ),
        (heap.map BuyOrder.order_id).Nodup →
        get_best_buy_order heap del = (some b, s', d') →
        b ∈ heap ∧ b.order_id ∉ del ∧
          ∀ x ∈ heap, x.order_id ∉ del → buyOrderCmp b x ≠ .lt) ∧
    (∀ (heap : List SellOrder) (del : Finset ℕ) (b : SellOrder)
        (s' : List SellOrder) (d' : Finset ℕ),
        (heap.map SellOrder.order_id).Nodup →
        get_best_sell_order heap del = (some b, s', d') →
        b ∈ heap ∧ b.order_id ∉ del ∧
          ∀ x ∈ heap, x.order_id ∉ del → sellOrderCmp b x ≠ .lt) :=
  ⟨buyOrderCmp_gt_iff, sellOrderCmp_gt_iff,
   fun heap del b s' d' => get_best_buy_max_aux heap.length heap le_rfl del b s' d',
   fun heap del b s' d' => get_best_sell_max_aux heap.length heap le_rfl del b s' d'⟩

/-- C7 witness: with buys 10@5 (t=0, id 1) and 10@6 (t=1, id 2), id 2
outranks id 1 and pop-best returns it. -/
theorem C7_price_time_priority_witness :
    buyOrderCmp ⟨2, 10, 6, 1⟩ ⟨1, 10, 5, 0⟩ = .gt ∧
    ((⟨2, 10, 6, 1⟩ : BuyOrder) ∈ [(⟨1, 10, 5, 0⟩ : BuyOrder), ⟨2, 10, 6, 1⟩] ∧
     (⟨2, 10, 6, 1⟩ : BuyOrder).order_id ∉ (∅ : Finset ℕ) ∧
     ∀ x ∈ [(⟨1, 10, 5, 0⟩ : BuyOrder), ⟨2, 10, 6, 1⟩],
       x.order_id ∉ (∅ : Finset ℕ) → buyOrderCmp ⟨2, 10, 6, 1⟩ x ≠ .lt) := by
  constructor
  · exact (C7_price_time_priority.1 ⟨2, 10, 6, 1⟩ ⟨1, 10, 5, 0⟩).2 (by norm_num)
  · have hev : get_best_buy_order [(⟨1, 10, 5, 0⟩ : BuyOrder), ⟨2, 10, 6, 1⟩] ∅ =
        (some ⟨2, 10, 6, 1⟩, [⟨1, 10, 5, 0⟩], ∅) := by
      rw [get_best_buy_order_unfold]
      norm_num [popMax, buyOrderCmp, cmp, cmpUsing]
    exact C7_price_time_priority.2.2.1 _ _ _ _ _ (by norm_num) hev

/-! ## Claim C8 — order-id assignment and OrderAck-first ordering -/

theorem process_log_preserves (st : Portal) (log : OrderbookLog) (st' : Portal)
    (t : PortalTask) (h : process_log st log = some (st', t)) :
    st'.last_order_id = st.last_order_id ∧ st'.orderbooks = st.orderbooks ∧
    st'.order_bind = st.order_bind ∧ st'.stocks = st.stocks := by
  cases log with
  | OrderLog resp =>
      simp only [process_log] at h
      cases hb : mlookup st.order_bind (get_resp_order_id resp) with
      | none => rw [hb] at h; simp at h
      | some rec =>
          rw [hb] at h
          obtain ⟨rfl, rfl⟩ := by simpa using h
          simp
  | EventLog e =>
      simp only [process_log] at h
      obtain ⟨rfl, rfl⟩ := by simpa using h
      simp

theorem process_logs_preserves :
    ∀ (logs : List OrderbookLog) (st st' : Portal) (ts : List PortalTask),
      process_logs st logs = some (st', ts) →
      st'.last_order_id = st.last_order_id ∧ st'.order_bind = st.order_bind ∧
      st'.stocks = st.stocks := by
  intro logs
  induction logs with
  | nil =>
      intro st st' ts h
      obtain ⟨rfl, rfl⟩ := by simpa [process_logs] using h
      exact ⟨rfl, rfl, rfl⟩
  | cons l ls ih =>
      intro st st' ts h
      simp only [process_logs] at h
      cases hl : process_log st l with
      | none => rw [hl] at h; simp at h
      | some p =>
          obtain ⟨st₁, t⟩ := p
          rw [hl] at h
          dsimp only at h
          cases hls : process_logs st₁ ls with
          | none => rw [hls] at h; simp at h
          | some q =>
              obtain ⟨st₂, ts'⟩ := q
              rw [hls] at h
              obtain ⟨rfl, rfl⟩ := by simpa using h
              obtain ⟨h1, _, h3, h4⟩ := process_log_preserves st l st₁ t hl
              obtain ⟨g1, g3, g4⟩ := ih st₁ st₂ ts' hls
              exact ⟨g1.trans h1, g3.trans h3, g4.trans h4⟩

theorem fill_in_market_order_frame (st : Portal) (req req' : PortalNewOrderRequest)
    (st₂ : Portal) (h : fill_in_market_order st req = some (req', st₂)) :
    st₂.accounts = st.accounts ∧ st₂.order_bind = st.order_bind ∧
    st₂.order_resting = st.order_resting ∧ st₂.events = st.events ∧
    st₂.stocks = st.stocks ∧ st₂.last_order_id = st.last_order_id := by
  cases hd : req.direction <;>
    · simp only [fill_in_market_order, hd] at h
      first
        | (cases hb : (obm_best_sell_price st.orderbooks req.ticker).1 with
            | some p =>
                rw [hb] at h
                obtain ⟨rfl, rfl⟩ := by simpa using h
                simp
            | none =>
                rw [hb] at h
                cases hc : get_close_price st.stocks req.ticker with
                | none => rw [hc] at h; simp at h
                | some c =>
                    rw [hc] at h
                    obtain ⟨rfl, rfl⟩ := by simpa using h
                    simp)
        | (cases hb : (obm_best_buy_price st.orderbooks req.ticker).1 with
            | some p =>
                rw [hb] at h
                obtain ⟨rfl, rfl⟩ := by simpa using h
                simp
            | none =>
                rw [hb] at h
                cases hc : get_close_price st.stocks req.ticker with
                | none => rw [hc] at h; simp at h
                | some c =>
                    rw [hc] at h
                    obtain ⟨rfl, rfl⟩ := by simpa using h
                    simp)

/-- C8: every accepted NewOrder (one whose task list is not a single
OrderReject) is assigned order id `last_order_id + 1`, and the task list
begins with `OrderAck(inv_id, seqnum, order_id)` before any task derived
from the engine's logs; a fresh portal starts the counter at 0, so the
first accepted order receives id 1. -/
theorem C8_order_id_and_ack (st : Portal) (inv seq : ℕ) (req : PortalNewOrderRequest)
    (st' : Portal) (tasks : List PortalTask)
    (h : process_request st seq (.NewOrder inv req) = some (st', tasks))
    (hacc : ∀ r, tasks ≠ [PortalTask.OrderReject inv seq r]) :
    (∃ rest, tasks = PortalTask.OrderAck inv seq (st.last_order_id + 1) :: rest) ∧
    st'.last_order_id = st.last_order_id + 1 ∧
    (∀ (stocks : List (String × StockRecord)) (accounts : List (ℕ × Account)),
      (mk_portal stocks accounts).last_order_id = 0) := by
  refine ?_
  simp only [process_request, process_portal_new_order] at h
  cases hcv : check_valid_order st.stocks req.ticker req.price req.size with
  | false =>
      rw [hcv] at h
      simp only [Bool.false_eq_true, ite_false] at h
      obtain ⟨rfl, rfl⟩ := by simpa using h
      exact absurd rfl (hacc _)
  | true =>
      rw [hcv] at h
      simp only [ite_true] at h
      cases hf : fill_in_market_order st req with
      | none => rw [hf] at h; simp at h
      | some p =>
          obtain ⟨req', st₂⟩ := p
          rw [hf] at h
          dsimp only at h
          cases hrv : accounts_valid_potential_order st₂.accounts inv
              (make_potential_order req') with
          | false =>
              rw [hrv] at h
              simp only [Bool.false_eq_true, ite_false] at h
              obtain ⟨rfl, rfl⟩ := by simpa using h
              exact absurd rfl (hacc _)
          | true =>
              rw [hrv] at h
              simp only [ite_true, generate_order_id] at h
              cases hp : process_new_order
                  { st₂ with
                      last_order_id := st₂.last_order_id + 1
                      accounts := update_by_potential_order st₂.accounts inv
                        (make_potential_order req')
                      order_bind := add_new_order st₂.order_bind
                        (st₂.last_order_id + 1) inv req' }
                  (st₂.last_order_id + 1) req' with
              | none => rw [hp] at h; simp at h
              | some q =>
                  obtain ⟨st₃, ts⟩ := q
                  rw [hp] at h
                  dsimp only at h
                  obtain ⟨rfl, rfl⟩ := by simpa using h
                  have hl2 : st₂.last_order_id = st.last_order_id :=
                    (fill_in_market_order_frame st req req' st₂ hf).2.2.2.2.2
                  have hl3 : st₃.last_order_id = st₂.last_order_id + 1 := by
                    have := process_logs_preserves _ _ _ _ (by
                      simpa [process_new_order] using hp)
                    simpa using this.1
                  refine ⟨⟨ts, by rw [hl2]⟩, by rw [hl3, hl2], fun _ _ => rfl⟩

/-- C8 witness: the accepted limit buy of the C2 scenario gets id
`0 + 1 = 1` and its task list starts with the OrderAck. -/
theorem C8_order_id_and_ack_witness :
    (∃ rest, [PortalTask.OrderAck 7 1 1,
        PortalTask.IncrementalEvent (.OrderAdded ⟨1, "AAPL", .Buy, 10, 100⟩)] =
      PortalTask.OrderAck 7 1 (stC2.last_order_id + 1) :: rest) ∧
    ({ orderbooks := [("AAPL", ⟨"AAPL", [⟨1, 10, 100, 3⟩], [], ∅⟩)]
       events := [.OrderAdded ⟨1, "AAPL", .Buy, 10, 100⟩]
       order_bind := [(1, ⟨7, "AAPL", .Buy, 100, 10⟩)]
       order_resting := [(1, 10)]
       accounts := [(7, ⟨7, "alice", "pw", 99000, []⟩)]
       stocks := [("AAPL", ⟨100, 10, 1, "Apple Inc"⟩)]
       last_order_id := 1 } : Portal).last_order_id = stC2.last_order_id + 1 ∧
    (∀ (stocks : List (String × StockRecord)) (accounts : List (ℕ × Account)),
      (mk_portal stocks accounts).last_order_id = 0) := by
  have g0 : get_best_sell_order ([] : List SellOrder) ∅ = (none, [], ∅) := by
    rw [get_best_sell_order_unfold]
    norm_num [popMax]
  have l0 : match_buy_loop "AAPL" (⟨1, .Buy, 10, 100, 3, .Limit, .Day⟩ : NewOrderRequest)
      10 [] ∅ = ⟨10, [], ∅, []⟩ := by
    rw [match_buy_loop_unfold _ _ (by norm_num), g0]
  have h : process_request stC2 1 (.NewOrder 7 reqC2) =
      some
        ({ orderbooks := [("AAPL", ⟨"AAPL", [⟨1, 10, 100, 3⟩], [], ∅⟩)]
           events := [.OrderAdded ⟨1, "AAPL", .Buy, 10, 100⟩]
           order_bind := [(1, ⟨7, "AAPL", .Buy, 100, 10⟩)]
           order_resting := [(1, 10)]
           accounts := [(7, ⟨7, "alice", "pw", 99000, []⟩)]
           stocks := [("AAPL", ⟨100, 10, 1, "Apple Inc"⟩)]
           last_order_id := 1 },
         [.OrderAck 7 1 1, .IncrementalEvent (.OrderAdded ⟨1, "AAPL", .Buy, 10, 100⟩)]) := by
    norm_num [process_request, process_portal_new_order, check_valid_order,
      check_valid_price, check_valid_size, mlookup, minsert, fill_in_market_order,
      obm_best_sell_price, best_sell_price, get_close_price, make_potential_order,
      accounts_valid_potential_order, account_valid_potential_order, generate_order_id,
      update_by_potential_order, accounts_update, get_upd_inv_id, account_update_one,
      add_new_order, process_new_order, obm_handle_request, orderbook_handle_request,
      handle_new_order, handle_new_buy_order, process_logs, process_log,
      order_info_update_by_event, stC2, reqC2, mk_portal, g0, l0]
  exact C8_order_id_and_ack stC2 7 1 reqC2 _ _ h (by intro r; simp)

theorem mlookup_minsert_self {κ α : Type} [DecidableEq κ] (m : List (κ × α)) (k : κ) (v : α) :
    mlookup (minsert m k v) k = some v := by
  induction m with
  | nil => simp [minsert, mlookup]
  | cons p rest ih =>
      obtain ⟨k', v'⟩ := p
      by_cases h : k = k'
      · simp [minsert, mlookup, h]
      · simp [minsert, mlookup, h, ih]

theorem mlookup_minsert_ne {κ α : Type} [DecidableEq κ] (m : List (κ × α)) (k k' : κ) (v : α)
    (h : k' ≠ k) : mlookup (minsert m k v) k' = mlookup m k' := by
  induction m with
  | nil => simp [minsert, mlookup, h]
  | cons p rest ih =>
      obtain ⟨k₀, v₀⟩ := p
      by_cases h0 : k = k₀
      · subst h0
        simp [minsert, mlookup, h]
      · by_cases h1 : k' = k₀
        · simp [minsert, mlookup, h0, h1]
        · simp [minsert, mlookup, h0, h1, ih]

theorem get_best_sell_none_aux :
    ∀ (n : ℕ) (heap : List SellOrder), heap.length ≤ n →
      ∀ (del : Finset ℕ) (s' : List SellOrder) (d' : Finset ℕ),
        get_best_sell_order heap del = (none, s', d') → s' = [] := by
  intro n
  induction n with
  | zero =>
      intro heap hlen del s' d' h
      have : heap = [] := List.length_eq_zero.1 (Nat.le_zero.1 hlen)
      subst this
      simpa [get_best_sell_order, get_best_sell_go] using congrArg (fun p => p.2.1) h
  | succ n ih =>
      intro heap hlen del s' d' h
      rw [get_best_sell_order_unfold] at h
      cases hp : popMax sellOrderCmp heap with
      | none =>
          rw [hp] at h
          have : heap = [] := (popMax_eq_none_iff _ _).1 hp
          subst this
          simpa using congrArg (fun p => p.2.1) h
      | some p =>
          obtain ⟨m, rest⟩ := p
          rw [hp] at h
          have hlr := popMax_length hp
          by_cases hd : m.order_id ∈ del
          · simp only [hd, if_pos] at h
            exact ih rest (by omega) _ _ _ h
          · simp only [hd, if_neg, ite_false] at h
            simp at h

theorem portal_buy_rests_no_fill (st : Portal) (inv seq : ℕ) (t : String)
    (sz : ℕ) (p : ℚ) (ts : ℕ) (srec : StockRecord) (bk : OrderBook) (acc : Account)
    (hstock : mlookup st.stocks t = some srec)
    (hbook : mlookup st.orderbooks t = some bk)
    (hcv : check_valid_order st.stocks t p sz = true)
    (hnosell : (get_best_sell_order bk.sell_orders bk.lazy_deleted).1 = none)
    (hacc : mlookup st.accounts inv = some acc)
    (hcash : srec.close_price * (sz : ℚ) ≤ acc.cash) :
    ∃ st₁ ts₁,
      process_portal_new_order st inv seq ⟨t, .Buy, sz, p, .Limit, .Day, ts⟩ =
        some (st₁, ts₁) ∧
      mlookup st₁.order_bind (st.last_order_id + 1) =
        some ⟨inv, t, .Buy, srec.close_price, sz⟩ ∧
      mlookup st₁.order_resting (st.last_order_id + 1) = some sz ∧
      (∃ bk₂, mlookup st₁.orderbooks t = some bk₂) ∧
      mlookup st₁.accounts inv =
        some { acc with cash := acc.cash + -(srec.close_price * (sz : ℚ)) } := by
  have hsz : 0 < sz := by
    rw [check_valid_order, hstock] at hcv
    simp only [Option.elim, Bool.and_eq_true] at hcv
    exact ((check_valid_size_true_iff _ _).1 hcv.2).2
  obtain ⟨d₀, hbest⟩ :
      ∃ d₀, get_best_sell_order bk.sell_orders bk.lazy_deleted = (none, [], d₀) := by
    rcases he : get_best_sell_order bk.sell_orders bk.lazy_deleted with ⟨ob, s', d'⟩
    rw [he] at hnosell
    simp only at hnosell
    subst hnosell
    have := get_best_sell_none_aux bk.sell_orders.length bk.sell_orders le_rfl _ _ _ he
    subst this
    exact ⟨d', rfl⟩
  have hf : fill_in_market_order st ⟨t, .Buy, sz, p, .Limit, .Day, ts⟩ =
      some ((⟨t, .Buy, sz, srec.close_price, .Limit, .Day, ts⟩ : PortalNewOrderRequest),
        ({ st with orderbooks := minsert st.orderbooks t ({ bk with sell_orders := [], lazy_deleted := d₀ }) })) := by
    simp only [fill_in_market_order, obm_best_sell_price, hbook, best_sell_price, hbest,
      get_close_price, hstock, Option.map_some']
  have hrv : accounts_valid_potential_order st.accounts inv
      (PotentialOrder.PotentialBuy (srec.close_price * (sz : ℚ))) = true := by
    simp [accounts_valid_potential_order, hacc, account_valid_potential_order, hcash]
  have gd : get_best_sell_order ([] : List SellOrder) d₀ = (none, [], d₀) := rfl
  have hloop : match_buy_loop bk.ticker
      ⟨st.last_order_id + 1, .Buy, sz, srec.close_price, ts, .Limit, .Day⟩ sz [] d₀ =
      ⟨sz, [], d₀, []⟩ := by
    rw [match_buy_loop_unfold _ _ hsz, gd]
  simp only [process_portal_new_order, hcv, ite_true]
  rw [hf]
  simp only [make_potential_order, hrv, ite_true, generate_order_id,
    update_by_potential_order, hacc, Option.isSome_some, accounts_update,
    get_upd_inv_id, account_update_one, add_new_order, process_new_order,
    obm_handle_request, mlookup_minsert_self, orderbook_handle_request,
    handle_new_order, handle_new_buy_order, hloop, hsz, and_self,
    process_logs, process_log, order_info_update_by_event]
  refine ⟨_, _, rfl, ?_, ?_, ?_, ?_⟩
  · exact mlookup_minsert_self _ _ _
  · exact mlookup_minsert_self _ _ _
  · exact ⟨_, mlookup_minsert_self _ _ _⟩
  · exact mlookup_minsert_self _ _ _


theorem portal_cancel_refunds (st₁ : Portal) (inv seq₂ oid : ℕ) (t : String)
    (c : ℚ) (sz : ℕ) (acc₂ : Account) (bk₂ : OrderBook)
    (hbind : mlookup st₁.order_bind oid = some ⟨inv, t, .Buy, c, sz⟩)
    (hrest : mlookup st₁.order_resting oid = some sz)
    (hsz : 0 < sz)
    (hbk : mlookup st₁.orderbooks t = some bk₂)
    (hacc : mlookup st₁.accounts inv = some acc₂) :
    ∃ st₂ ts₂,
      process_portal_cancel_order st₁ inv seq₂ oid = some (st₂, ts₂) ∧
      (mlookup st₂.accounts inv).map Account.cash = some (acc₂.cash + (sz : ℚ) * c) := by
  simp only [process_portal_cancel_order, valid_cancel_order, get_resting, hrest,
    Nat.pos_iff_ne_zero.1 hsz, ite_false, hbind, Option.elim, decide_True,
    find_ticker_by_order_id, Option.map_some', obm_handle_request,
    orderbook_handle_request, handle_cancel_order, process_logs, process_log,
    get_resp_order_id, orderresponse_to_acc_update, hbk]
  simp only [hrest, hbind, hbk, List.foldl_cons, List.foldl_nil, accounts_update,
    get_upd_inv_id, account_update_one, hacc, order_info_update_by_event,
    ite_true, decide_True]
  exact ⟨_, _, rfl, by simp [mlookup_minsert_self]⟩

/-- **C9**: round-trip — a limit Day buy that is accepted and rests on the
book without receiving any fill (here: the opposite book holds no live sell,
which for this code is equivalent, since the fill-in replaces the buy price
by the best live sell price whenever one exists and the order then crosses)
followed by a valid cancel of that order restores the investor's cash to its
exact value before the order was submitted: the advance drawdown of
price × size is fully refunded by the dead-order refund of
resting_size × limit_price. -/
theorem C9_cancel_restores_cash (st : Portal) (inv seq seq₂ : ℕ) (t : String)
    (sz : ℕ) (p : ℚ) (ts : ℕ) (srec : StockRecord) (bk : OrderBook) (acc : Account)
    (hstock : mlookup st.stocks t = some srec)
    (hbook : mlookup st.orderbooks t = some bk)
    (hcv : check_valid_order st.stocks t p sz = true)
    (hnosell : (get_best_sell_order bk.sell_orders bk.lazy_deleted).1 = none)
    (hacc : mlookup st.accounts inv = some acc)
    (hcash : srec.close_price * (sz : ℚ) ≤ acc.cash) :
    ∃ st₁ ts₁ st₂ ts₂,
      process_portal_new_order st inv seq ⟨t, .Buy, sz, p, .Limit, .Day, ts⟩ =
        some (st₁, ts₁) ∧
      process_portal_cancel_order st₁ inv seq₂ (st.last_order_id + 1) =
        some (st₂, ts₂) ∧
      (mlookup st₂.accounts inv).map Account.cash = some acc.cash := by
  have hsz : 0 < sz := by
    rw [check_valid_order, hstock] at hcv
    simp only [Option.elim, Bool.and_eq_true] at hcv
    exact ((check_valid_size_true_iff _ _).1 hcv.2).2
  obtain ⟨st₁, ts₁, hnew, hbind, hrest, ⟨bk₂, hbk⟩, hacc₁⟩ :=
    portal_buy_rests_no_fill st inv seq t sz p ts srec bk acc
      hstock hbook hcv hnosell hacc hcash
  obtain ⟨st₂, ts₂, hcancel, hm⟩ :=
    portal_cancel_refunds st₁ inv seq₂ (st.last_order_id + 1) t srec.close_price sz
      _ bk₂ hbind hrest hsz hbk hacc₁
  refine ⟨st₁, ts₁, st₂, ts₂, hnew, hcancel, ?_⟩
  rw [hm]
  simp only [Option.some.injEq]
  ring

theorem C9_cancel_restores_cash_witness :
    ∃ st₁ ts₁ st₂ ts₂,
      process_portal_new_order stC2 7 1 ⟨"AAPL", .Buy, 10, 10, .Limit, .Day, 3⟩ =
        some (st₁, ts₁) ∧
      process_portal_cancel_order st₁ 7 2 1 = some (st₂, ts₂) ∧
      (mlookup st₂.accounts 7).map Account.cash = some (100000 : ℚ) :=
  C9_cancel_restores_cash stC2 7 1 2 "AAPL" 10 10 3 ⟨100, 10, 1, "Apple Inc"⟩
    ⟨"AAPL", [], [], ∅⟩ ⟨7, "alice", "pw", 100000, []⟩
    (by simp [stC2, mk_portal, mlookup])
    (by simp [stC2, mk_portal, mlookup])
    (by norm_num [stC2, mk_portal, check_valid_order, mlookup, check_valid_price,
      check_valid_size])
    rfl
    (by simp [stC2, mk_portal, mlookup])
    (by norm_num)

theorem get_best_sell_live_aux :
    ∀ (n : ℕ) (heap : List SellOrder), heap.length ≤ n →
      ∀ (del : Finset ℕ) (res : Option SellOrder) (s' : List SellOrder) (d' : Finset ℕ),
        (heap.map SellOrder.order_id).Nodup →
        get_best_sell_order heap del = (res, s', d') →
        live_sells (res.elim s' (fun b => b :: s')) d' = live_sells heap del ∧
        d' ⊆ del ∧ ∀ i ∈ del, i ∉ d' → i ∈ heap.map SellOrder.order_id := by
  intro n
  induction n with
  | zero =>
      intro heap hlen del res s' d' hnd h
      have he : heap = [] := List.length_eq_zero.1 (Nat.le_zero.1 hlen)
      subst he
      obtain ⟨rfl, rfl, rfl⟩ := by simpa [get_best_sell_order, get_best_sell_go] using h.symm
      exact ⟨rfl, Finset.Subset.refl _, fun i hi hni => absurd hi hni⟩
  | succ n ih =>
      intro heap hlen del res s' d' hnd h
      rw [get_best_sell_order_unfold] at h
      cases hp : popMax sellOrderCmp heap with
      | none =>
          rw [hp] at h
          have he : heap = [] := (popMax_eq_none_iff _ _).1 hp
          subst he
          obtain ⟨rfl, rfl, rfl⟩ := by simpa using h.symm
          exact ⟨rfl, Finset.Subset.refl _, fun i hi hni => absurd hi hni⟩
      | some p =>
          obtain ⟨m, rest⟩ := p
          rw [hp] at h
          have hperm := popMax_perm hp
          have hlr := popMax_length hp
          have hnd2 : ((m :: rest).map SellOrder.order_id).Nodup :=
            ((hperm.map SellOrder.order_id).nodup_iff).1 hnd
          rw [List.map_cons, List.nodup_cons] at hnd2
          have hmne : ∀ o ∈ rest, o.order_id ≠ m.order_id := by
            intro o ho heq
            exact hnd2.1 (by rw [← heq]; exact List.mem_map_of_mem _ ho)
          have hheap : live_sells heap del = live_sells (m :: rest) del := by
            simp only [live_sells]
            exact Multiset.coe_eq_coe.2 (hperm.filter _)
          by_cases hd : m.order_id ∈ del
          · simp only [hd, if_pos] at h
            obtain ⟨hlive, hsub, hesc⟩ := ih rest (by omega) _ _ _ _ hnd2.2 h
            refine ⟨?_, hsub.trans (Finset.erase_subset _ _), ?_⟩
            · rw [hlive, hheap]
              simp only [live_sells, List.filter_cons]
              have hm : (decide (m.order_id ∉ del)) = false := by simp [hd]
              rw [hm]
              simp only [Bool.false_eq_true, if_false]
              have hfe : rest.filter (fun o => decide (o.order_id ∉ del.erase m.order_id)) =
                  rest.filter (fun o => decide (o.order_id ∉ del)) := by
                refine List.filter_congr ?_
                intro o ho
                simp only [decide_eq_decide, Finset.mem_erase]
                simp [hmne o ho]
              rw [hfe]
            · intro i hi hni
              by_cases him : i = m.order_id
              · subst him
                exact List.mem_map_of_mem _ (popMax_mem hp)
              · have hie : i ∈ del.erase m.order_id := Finset.mem_erase.2 ⟨him, hi⟩
                have hrm := hesc i hie hni
                refine (hperm.map SellOrder.order_id).mem_iff.2 ?_
                rw [List.map_cons]
                exact List.mem_cons_of_mem _ hrm
          · simp only [hd, if_neg, ite_false] at h
            obtain ⟨rfl, rfl, rfl⟩ := by simpa using h.symm
            refine ⟨?_, Finset.Subset.refl _, fun i hi hni => absurd hi hni⟩
            rw [hheap]
            rfl

theorem get_best_buy_live_aux :
    ∀ (n : ℕ) (heap : List BuyOrder), heap.length ≤ n →
      ∀ (del : Finset ℕ) (res : Option BuyOrder) (s' : List BuyOrder) (d' : Finset ℕ),
        (heap.map BuyOrder.order_id).Nodup →
        get_best_buy_order heap del = (res, s', d') →
        live_buys (res.elim s' (fun b => b :: s')) d' = live_buys heap del ∧
        d' ⊆ del ∧ ∀ i ∈ del, i ∉ d' → i ∈ heap.map BuyOrder.order_id := by
  intro n
  induction n with
  | zero =>
      intro heap hlen del res s' d' hnd h
      have he : heap = [] := List.length_eq_zero.1 (Nat.le_zero.1 hlen)
      subst he
      obtain ⟨rfl, rfl, rfl⟩ := by simpa [get_best_buy_order, get_best_buy_go] using h.symm
      exact ⟨rfl, Finset.Subset.refl _, fun i hi hni => absurd hi hni⟩
  | succ n ih =>
      intro heap hlen del res s' d' hnd h
      rw [get_best_buy_order_unfold] at h
      cases hp : popMax buyOrderCmp heap with
      | none =>
          rw [hp] at h
          have he : heap = [] := (popMax_eq_none_iff _ _).1 hp
          subst he
          obtain ⟨rfl, rfl, rfl⟩ := by simpa using h.symm
          exact ⟨rfl, Finset.Subset.refl _, fun i hi hni => absurd hi hni⟩
      | some p =>
          obtain ⟨m, rest⟩ := p
          rw [hp] at h
          have hperm := popMax_perm hp
          have hlr := popMax_length hp
          have hnd2 : ((m :: rest).map BuyOrder.order_id).Nodup :=
            ((hperm.map BuyOrder.order_id).nodup_iff).1 hnd
          rw [List.map_cons, List.nodup_cons] at hnd2
          have hmne : ∀ o ∈ rest, o.order_id ≠ m.order_id := by
            intro o ho heq
            exact hnd2.1 (by rw [← heq]; exact List.mem_map_of_mem _ ho)
          have hheap : live_buys heap del = live_buys (m :: rest) del := by
            simp only [live_buys]
            exact Multiset.coe_eq_coe.2 (hperm.filter _)
          by_cases hd : m.order_id ∈ del
          · simp only [hd, if_pos] at h
            obtain ⟨hlive, hsub, hesc⟩ := ih rest (by omega) _ _ _ _ hnd2.2 h
            refine ⟨?_, hsub.trans (Finset.erase_subset _ _), ?_⟩
            · rw [hlive, hheap]
              simp only [live_buys, List.filter_cons]
              have hm : (decide (m.order_id ∉ del)) = false := by simp [hd]
              rw [hm]
              simp only [Bool.false_eq_true, if_false]
              have hfe : rest.filter (fun o => decide (o.order_id ∉ del.erase m.order_id)) =
                  rest.filter (fun o => decide (o.order_id ∉ del)) := by
                refine List.filter_congr ?_
                intro o ho
                simp only [decide_eq_decide, Finset.mem_erase]
                simp [hmne o ho]
              rw [hfe]
            · intro i hi hni
              by_cases him : i = m.order_id
              · subst him
                exact List.mem_map_of_mem _ (popMax_mem hp)
              · have hie : i ∈ del.erase m.order_id := Finset.mem_erase.2 ⟨him, hi⟩
                have hrm := hesc i hie hni
                refine (hperm.map BuyOrder.order_id).mem_iff.2 ?_
                rw [List.map_cons]
                exact List.mem_cons_of_mem _ hrm
          · simp only [hd, if_neg, ite_false] at h
            obtain ⟨rfl, rfl, rfl⟩ := by simpa using h.symm
            refine ⟨?_, Finset.Subset.refl _, fun i hi hni => absurd hi hni⟩
            rw [hheap]
            rfl

theorem best_sell_price_book (bk : OrderBook)
    (hnds : (bk.sell_orders.map SellOrder.order_id).Nodup)
    (hdisj : ∀ i ∈ bk.buy_orders.map BuyOrder.order_id,
      i ∈ bk.sell_orders.map SellOrder.order_id → False) :
    live_buys (best_sell_price bk).2.buy_orders (best_sell_price bk).2.lazy_deleted =
      live_buys bk.buy_orders bk.lazy_deleted ∧
    live_sells (best_sell_price bk).2.sell_orders (best_sell_price bk).2.lazy_deleted =
      live_sells bk.sell_orders bk.lazy_deleted := by
  rcases hg : get_best_sell_order bk.sell_orders bk.lazy_deleted with ⟨res, s', d'⟩
  obtain ⟨hlive, hsub, hesc⟩ :=
    get_best_sell_live_aux bk.sell_orders.length bk.sell_orders le_rfl
      bk.lazy_deleted res s' d' hnds hg
  have hbuy : live_buys bk.buy_orders d' = live_buys bk.buy_orders bk.lazy_deleted := by
    simp only [live_buys]
    have hfe : bk.buy_orders.filter (fun o => decide (o.order_id ∉ d')) =
        bk.buy_orders.filter (fun o => decide (o.order_id ∉ bk.lazy_deleted)) := by
      refine List.filter_congr ?_
      intro o ho
      simp only [decide_eq_decide]
      constructor
      · intro h1 h2
        exact hdisj o.order_id (List.mem_map_of_mem _ ho) (hesc _ h2 h1)
      · intro h1 h2
        exact h1 (hsub h2)
    rw [hfe]
  cases res with
  | none =>
      simp only [best_sell_price, hg]
      exact ⟨hbuy, hlive⟩
  | some b =>
      simp only [best_sell_price, hg]
      exact ⟨hbuy, hlive⟩

theorem best_buy_price_book (bk : OrderBook)
    (hndb : (bk.buy_orders.map BuyOrder.order_id).Nodup)
    (hdisj : ∀ i ∈ bk.buy_orders.map BuyOrder.order_id,
      i ∈ bk.sell_orders.map SellOrder.order_id → False) :
    live_buys (best_buy_price bk).2.buy_orders (best_buy_price bk).2.lazy_deleted =
      live_buys bk.buy_orders bk.lazy_deleted ∧
    live_sells (best_buy_price bk).2.sell_orders (best_buy_price bk).2.lazy_deleted =
      live_sells bk.sell_orders bk.lazy_deleted := by
  rcases hg : get_best_buy_order bk.buy_orders bk.lazy_deleted with ⟨res, s', d'⟩
  obtain ⟨hlive, hsub, hesc⟩ :=
    get_best_buy_live_aux bk.buy_orders.length bk.buy_orders le_rfl
      bk.lazy_deleted res s' d' hndb hg
  have hsell : live_sells bk.sell_orders d' = live_sells bk.sell_orders bk.lazy_deleted := by
    simp only [live_sells]
    have hfe : bk.sell_orders.filter (fun o => decide (o.order_id ∉ d')) =
        bk.sell_orders.filter (fun o => decide (o.order_id ∉ bk.lazy_deleted)) := by
      refine List.filter_congr ?_
      intro o ho
      simp only [decide_eq_decide]
      constructor
      · intro h1 h2
        exact hdisj o.order_id (hesc _ h2 h1) (List.mem_map_of_mem _ ho)
      · intro h1 h2
        exact h1 (hsub h2)
    rw [hfe]
  cases res with
  | none =>
      simp only [best_buy_price, hg]
      exact ⟨hlive, hsell⟩
  | some b =>
      simp only [best_buy_price, hg]
      exact ⟨hlive, hsell⟩

theorem obm_best_sell_price_self (books : List (String × OrderBook)) (t : String)
    (bk : OrderBook) (h : mlookup books t = some bk) :
    mlookup (obm_best_sell_price books t).2 t = some (best_sell_price bk).2 := by
  simp only [obm_best_sell_price, h]
  exact mlookup_minsert_self _ _ _

theorem obm_best_buy_price_self (books : List (String × OrderBook)) (t : String)
    (bk : OrderBook) (h : mlookup books t = some bk) :
    mlookup (obm_best_buy_price books t).2 t = some (best_buy_price bk).2 := by
  simp only [obm_best_buy_price, h]
  exact mlookup_minsert_self _ _ _

theorem obm_best_sell_price_frame (books : List (String × OrderBook)) (t t' : String)
    (h : t' ≠ t) : mlookup (obm_best_sell_price books t).2 t' = mlookup books t' := by
  cases hb : mlookup books t with
  | none => simp [obm_best_sell_price, hb]
  | some bk =>
      simp only [obm_best_sell_price, hb]
      exact mlookup_minsert_ne _ _ _ _ h

theorem obm_best_buy_price_frame (books : List (String × OrderBook)) (t t' : String)
    (h : t' ≠ t) : mlookup (obm_best_buy_price books t).2 t' = mlookup books t' := by
  cases hb : mlookup books t with
  | none => simp [obm_best_buy_price, hb]
  | some bk =>
      simp only [obm_best_buy_price, hb]
      exact mlookup_minsert_ne _ _ _ _ h

theorem fill_in_market_order_books (st : Portal) (req req' : PortalNewOrderRequest)
    (st₂ : Portal) (h : fill_in_market_order st req = some (req', st₂)) :
    st₂.orderbooks = (obm_best_sell_price st.orderbooks req.ticker).2 ∨
    st₂.orderbooks = (obm_best_buy_price st.orderbooks req.ticker).2 := by
  cases hd : req.direction with
  | Buy =>
      left
      simp only [fill_in_market_order, hd] at h
      cases hb : (obm_best_sell_price st.orderbooks req.ticker).1 with
      | some p =>
          rw [hb] at h
          obtain ⟨rfl, rfl⟩ := by simpa using h
          simp
      | none =>
          rw [hb] at h
          cases hc : get_close_price st.stocks req.ticker with
          | none => rw [hc] at h; simp at h
          | some c =>
              rw [hc] at h
              obtain ⟨rfl, rfl⟩ := by simpa using h
              simp
  | Sell =>
      right
      simp only [fill_in_market_order, hd] at h
      cases hb : (obm_best_buy_price st.orderbooks req.ticker).1 with
      | some p =>
          rw [hb] at h
          obtain ⟨rfl, rfl⟩ := by simpa using h
          simp
      | none =>
          rw [hb] at h
          cases hc : get_close_price st.stocks req.ticker with
          | none => rw [hc] at h; simp at h
          | some c =>
              rw [hc] at h
              obtain ⟨rfl, rfl⟩ := by simpa using h
              simp

/-- **C10** (amended): a NewOrder rejected by the tick/lot validity check
leaves the portal state entirely unchanged. A NewOrder rejected by the
pre-trade risk check leaves the order-id counter, the accounts, the order
records, the resting sizes, the event history, the stock table and every
other ticker's orderbook unchanged, and it preserves the multisets of live
resting buy and sell orders of the request ticker's book (assuming the ids
in that book are unique); the best-price query performed by the market-price
fill-in — which the code runs before the risk check — may however
garbage-collect lazily-deleted entries of that book. -/
theorem C10_reject_atomicity_amended (st : Portal) (inv seq : ℕ)
    (req : PortalNewOrderRequest) :
    (check_valid_order st.stocks req.ticker req.price req.size = false →
      process_portal_new_order st inv seq req =
        some (st, [.OrderReject inv seq
          "Invalid new order request: Invalid price or size"])) ∧
    (∀ req' st₂, check_valid_order st.stocks req.ticker req.price req.size = true →
      fill_in_market_order st req = some (req', st₂) →
      accounts_valid_potential_order st₂.accounts inv (make_potential_order req') = false →
      process_portal_new_order st inv seq req =
        some (st₂, [.OrderReject inv seq
          "Invalid new order request: Insufficient cash or lot to complete the order"]) ∧
      st₂.accounts = st.accounts ∧ st₂.order_bind = st.order_bind ∧
      st₂.order_resting = st.order_resting ∧ st₂.events = st.events ∧
      st₂.stocks = st.stocks ∧ st₂.last_order_id = st.last_order_id ∧
      (∀ t', t' ≠ req.ticker → mlookup st₂.orderbooks t' = mlookup st.orderbooks t') ∧
      (∀ bk bk₂, mlookup st.orderbooks req.ticker = some bk →
        mlookup st₂.orderbooks req.ticker = some bk₂ →
        (bk.buy_orders.map BuyOrder.order_id).Nodup →
        (bk.sell_orders.map SellOrder.order_id).Nodup →
        (∀ i ∈ bk.buy_orders.map BuyOrder.order_id,
          i ∈ bk.sell_orders.map SellOrder.order_id → False) →
        live_buys bk₂.buy_orders bk₂.lazy_deleted =
          live_buys bk.buy_orders bk.lazy_deleted ∧
        live_sells bk₂.sell_orders bk₂.lazy_deleted =
          live_sells bk.sell_orders bk.lazy_deleted)) := by
  constructor
  · intro hcv
    simp [process_portal_new_order, hcv]
  · intro req' st₂ hcv hf hav
    obtain ⟨ha, hb, hr, he, hs, hl⟩ := fill_in_market_order_frame st req req' st₂ hf
    have hbooks := fill_in_market_order_books st req req' st₂ hf
    refine ⟨?_, ha, hb, hr, he, hs, hl, ?_, ?_⟩
    · simp only [process_portal_new_order, hcv, ite_true]
      rw [hf]
      simp only [hav, Bool.false_eq_true, if_false]
    · intro t' ht'
      rcases hbooks with h1 | h1 <;> rw [h1]
      · exact obm_best_sell_price_frame _ _ _ ht'
      · exact obm_best_buy_price_frame _ _ _ ht'
    · intro bk bk₂ hbk hbk₂ hndb hnds hdisj
      rcases hbooks with h1 | h1
      · rw [h1, obm_best_sell_price_self _ _ _ hbk] at hbk₂
        obtain rfl := Option.some.inj hbk₂
        exact best_sell_price_book bk hnds hdisj
      · rw [h1, obm_best_buy_price_self _ _ _ hbk] at hbk₂
        obtain rfl := Option.some.inj hbk₂
        exact best_buy_price_book bk hndb hdisj

theorem C10_reject_atomicity_amended_witness :
    process_portal_new_order stC10 7 1 ⟨"AAPL", .Buy, 10, 7.5, .Limit, .Day, 5⟩ =
      some (stC10, [.OrderReject 7 1
        "Invalid new order request: Invalid price or size"]) ∧
    process_portal_new_order stC10 7 1 reqC10 =
      some ({ stC10 with orderbooks := [("AAPL", ⟨"AAPL", [], [], ∅⟩)] },
        [.OrderReject 7 1
          "Invalid new order request: Insufficient cash or lot to complete the order"]) ∧
    live_sells ([] : List SellOrder) (∅ : Finset ℕ) =
      live_sells [(⟨1, 10, 100, 0⟩ : SellOrder)] {1} := by
  have g : get_best_sell_order [(⟨1, 10, 100, 0⟩ : SellOrder)] {1} = (none, [], ∅) := by
    rw [get_best_sell_order_unfold]
    norm_num [popMax]
    rw [get_best_sell_order_unfold]
    norm_num [popMax]
  have hf : fill_in_market_order stC10 reqC10 =
      some ({ reqC10 with price := 100 },
        { stC10 with orderbooks := [("AAPL", ⟨"AAPL", [], [], ∅⟩)] }) := by
    norm_num [fill_in_market_order, reqC10, stC10, obm_best_sell_price, best_sell_price,
      get_close_price, mlookup, minsert, g]
  have hA := (C10_reject_atomicity_amended stC10 7 1
      ⟨"AAPL", .Buy, 10, 7.5, .Limit, .Day, 5⟩).1
    (by norm_num [check_valid_order, check_valid_price, check_valid_size, stC10, mlookup]
        norm_num [Int.fract]
        rw [abs_of_nonneg (by norm_num : (0 : ℚ) ≤ 1 / 2)]
        norm_num)
  obtain ⟨heq, -, -, -, -, -, -, -, hlive⟩ :=
    (C10_reject_atomicity_amended stC10 7 1 reqC10).2 { reqC10 with price := 100 }
      ({ stC10 with orderbooks := [("AAPL", ⟨"AAPL", [], [], ∅⟩)] })
      (by norm_num [check_valid_order, check_valid_price, check_valid_size, stC10,
        reqC10, mlookup])
      hf
      (by norm_num [accounts_valid_potential_order, account_valid_potential_order,
        make_potential_order, stC10, reqC10, mlookup])
  refine ⟨hA, heq, ?_⟩
  exact (hlive ⟨"AAPL", [], [⟨1, 10, 100, 0⟩], {1}⟩ ⟨"AAPL", [], [], ∅⟩
    (by simp [stC10, reqC10, mlookup]) (by simp [stC10, reqC10, mlookup])
    (by simp) (by simp) (by simp)).2
